import Mathlib

/-!
# LazzyQuant `BarCollector`: OHLCV bar aggregation

A shallow embedding of `src/quant_trader/bar_collector.cpp`.

Modelling conventions.

* `qint64` / `int` values are integers (`Int`); C++ `/` and `%` are the
  truncating `Int.tdiv` and `Int.tmod`.  Signed overflow is undefined behaviour
  in C++ and is not modelled.
* `double` prices are elements of a type `P` carrying a bounded linear order:
  the code only copies and compares prices, and the finite doubles under `<`
  form a linear order whose least and greatest elements are `-DBL_MAX` and
  `DBL_MAX` (`⊥` and `⊤` below).  NaN and the infinities are excluded.
* Member functions become functions of the collector state that return the new
  state together with the list of side effects they performed, in order.
-/

namespace LazzyQuant

/-! ## TimeFrame catalog -/

/-- The enumeration `BarCollector::TimeFrame`: its members are the keys of
`g_time_table`.  The code passes timeframes as `int`; only members of the
enumeration occur, since `keys` is built from the enumeration. -/
inductive TimeFrame where
  | SEC1 | SEC2 | SEC3 | SEC4 | SEC5 | SEC6 | SEC10 | SEC12 | SEC15 | SEC20 | SEC30
  | MIN1 | MIN2 | MIN3 | MIN4 | MIN5 | MIN6 | MIN10 | MIN12 | MIN15 | MIN30
  | HOUR1 | HOUR2 | HOUR3 | HOUR4 | HOUR6 | HOUR8 | HOUR12
  | DAY
  deriving DecidableEq

/-- The macro `MIN_UNIT` (60 seconds). -/
def MIN_UNIT : Int := 60

/-- The macro `HOUR_UNIT` (3600 seconds). -/
def HOUR_UNIT : Int := 3600

/-- The table `g_time_table`: duration in seconds of every timeframe. -/
def g_time_table : TimeFrame → Int
  | .SEC1 => 1
  | .SEC2 => 2
  | .SEC3 => 3
  | .SEC4 => 4
  | .SEC5 => 5
  | .SEC6 => 6
  | .SEC10 => 10
  | .SEC12 => 12
  | .SEC15 => 15
  | .SEC20 => 20
  | .SEC30 => 30
  | .MIN1 => 1 * MIN_UNIT
  | .MIN2 => 2 * MIN_UNIT
  | .MIN3 => 3 * MIN_UNIT
  | .MIN4 => 4 * MIN_UNIT
  | .MIN5 => 5 * MIN_UNIT
  | .MIN6 => 6 * MIN_UNIT
  | .MIN10 => 10 * MIN_UNIT
  | .MIN12 => 12 * MIN_UNIT
  | .MIN15 => 15 * MIN_UNIT
  | .MIN30 => 30 * MIN_UNIT
  | .HOUR1 => 1 * HOUR_UNIT
  | .HOUR2 => 2 * HOUR_UNIT
  | .HOUR3 => 3 * HOUR_UNIT
  | .HOUR4 => 4 * HOUR_UNIT
  | .HOUR6 => 6 * HOUR_UNIT
  | .HOUR8 => 8 * HOUR_UNIT
  | .HOUR12 => 12 * HOUR_UNIT
  | .DAY => 24 * HOUR_UNIT

/-! ## Bar state -/

/-- Modelled from the spec: the class `StandardBar` (`standard_bar.h` is not
part of the sources).  Its fields are the ones `onMarketData` touches and the
spec's Bar lists: bucket start `time`, the four prices, `tick_volume` and
`volume`. -/
structure StandardBar (P : Type) where
  time : Int
  open_ : P
  high : P
  low : P
  close : P
  tick_volume : Int
  volume : Int
  deriving DecidableEq

/-- Modelled from the spec: the values `StandardBar::reset` stores in the fields
`time`, `open` and `close`.  The spec fixes the other fields of a reset bar and
leaves these three open, so they are parameters of the model. -/
structure ResetValues (P : Type) where
  time : Int
  open_ : P
  close : P

/-- Modelled from the spec: `StandardBar::isEmpty`; a bar is empty iff it has
accumulated zero ticks. -/
def StandardBar.isEmpty {P : Type} (bar : StandardBar P) : Bool :=
  bar.tick_volume == 0

/-- Modelled from the spec: `StandardBar::reset`; the reset bar has tick volume
0, volume 0, its high below and its low above every price. -/
def StandardBar.reset {P : Type} [LinearOrder P] [BoundedOrder P]
    (rv : ResetValues P) : StandardBar P :=
  { time := rv.time, open_ := rv.open_, high := ⊥, low := ⊤, close := rv.close,
    tick_volume := 0, volume := 0 }

/-! ## Side effects -/

/-- The two external sinks: `saveBarToDb` (persistence; the table is identified by
instrument and timeframe) and the signal `collectedBar` (event sink). -/
inductive Effect (P : Type) where
  | saveBarToDb (instrument : String) (timeFrame : TimeFrame) (bar : StandardBar P)
  | collectedBar (instrument : String) (timeFrame : TimeFrame) (bar : StandardBar P)
  deriving DecidableEq

/-! ## The collector -/

/-- Member variables of `BarCollector` that `bar_collector.cpp` reads or writes
(the class declaration, `bar_collector.h`, is not part of the sources).  The map
`barMap` is total here; `barMap[key]` of an absent key would insert a fresh
bar. -/
structure BarCollector (P : Type) where
  instrument : String
  saveBarsToDB : Bool
  keys : List TimeFrame
  barMap : TimeFrame → StandardBar P
  isStockLike : Bool
  tradingDayBase : Int
  lastVolume : Int

section Operations

variable {P : Type} [LinearOrder P] [BoundedOrder P]

/-- The constructor: every configured timeframe gets a fresh (reset) bar.  The
list `keys` stands for `enumValueToList<TimeFrames>(timeFrameFlags)` sorted in
descending order; `saveBarsToDB` is the flag as it stands after the database
set-up; `lastVolume` starts at 0. -/
def BarCollector.init (rv : ResetValues P) (instrumentID : String)
    (keys : List TimeFrame) (saveBarsToDB isStockLike : Bool)
    (tradingDayBase : Int) : BarCollector P :=
  { instrument := instrumentID
    saveBarsToDB := saveBarsToDB
    keys := keys
    barMap := fun _ => StandardBar.reset rv
    isStockLike := isStockLike
    tradingDayBase := tradingDayBase
    lastVolume := 0 }

/-- Member function `BarCollector::setTradingDay`; `dateToUtcTimestamp2` (from
`datetime_helper.h`) is a parameter. -/
def BarCollector.setTradingDay (dateToUtcTimestamp2 : String → Int)
    (c : BarCollector P) (tradingDay : String) : BarCollector P :=
  let newTradingDayBase := dateToUtcTimestamp2 tradingDay
  if c.tradingDayBase ≠ newTradingDayBase then
    { c with tradingDayBase := newTradingDayBase, lastVolume := 0 }
  else c

/-- Member function `BarCollector::getTimeFrameBegin`.  The local `generic` is the
code after the `if (isStockLike)` block (the table look-up and the plain
modulus), reached when the market is continuous or when neither `return` inside
the block fires. -/
def BarCollector.getTimeFrameBegin (c : BarCollector P) (currentTime : Int)
    (timeFrame : TimeFrame) : Int :=
  if timeFrame = TimeFrame.DAY then
    c.tradingDayBase
  else
    let generic :=
      let time_unit := g_time_table timeFrame
      currentTime.tdiv time_unit * time_unit
    if c.isStockLike then
      let hour := (currentTime.tdiv HOUR_UNIT).tmod 24
      if timeFrame = TimeFrame.HOUR1 ∧ hour < 12 then
        ((currentTime - 30 * MIN_UNIT).tdiv HOUR_UNIT * HOUR_UNIT) + 30 * MIN_UNIT
      else if timeFrame = TimeFrame.HOUR2 then
        let currentTimeBase := currentTime.tdiv (24 * HOUR_UNIT) * 24 * HOUR_UNIT
        currentTimeBase
          + (if hour < 12 then 9 * HOUR_UNIT + 30 * MIN_UNIT else 13 * HOUR_UNIT)
      else generic
    else generic

/-- Member function `BarCollector::saveEmitReset`: the effects performed and the
bar afterwards. -/
def BarCollector.saveEmitReset (rv : ResetValues P) (c : BarCollector P)
    (timeFrame : TimeFrame) (bar : StandardBar P) : List (Effect P) × StandardBar P :=
  if !bar.isEmpty then
    ((if c.saveBarsToDB then [Effect.saveBarToDb c.instrument timeFrame bar] else [])
        ++ [Effect.collectedBar c.instrument timeFrame bar],
      StandardBar.reset rv)
  else
    ([], bar)

/-- The body of the loop of `BarCollector::onMarketData` for one key: the
effects performed and the bar `barMap[key]` afterwards. -/
def BarCollector.onMarketDataKey (rv : ResetValues P) (c : BarCollector P)
    (currentTime : Int) (lastPrice : P) (volume : Int) (isNewTick : Bool)
    (key : TimeFrame) (bar : StandardBar P) : List (Effect P) × StandardBar P :=
  let timeFrameBegin := c.getTimeFrameBegin currentTime key
  let r := if timeFrameBegin ≠ bar.time then c.saveEmitReset rv key bar else ([], bar)
  if !isNewTick then
    r
  else
    let bar := r.2
    let bar :=
      if bar.isEmpty then { bar with time := timeFrameBegin, open_ := lastPrice } else bar
    let bar := if lastPrice > bar.high then { bar with high := lastPrice } else bar
    let bar := if lastPrice < bar.low then { bar with low := lastPrice } else bar
    (r.1, { bar with close := lastPrice
                     tick_volume := bar.tick_volume + 1
                     volume := bar.volume + (volume - c.lastVolume) })

/-- The loop `for (auto key : keys)` of `BarCollector::onMarketData`, over the
keys still to visit and the current `barMap`. -/
def BarCollector.onMarketDataLoop (rv : ResetValues P) (c : BarCollector P)
    (currentTime : Int) (lastPrice : P) (volume : Int) (isNewTick : Bool) :
    List TimeFrame → (TimeFrame → StandardBar P) →
      List (Effect P) × (TimeFrame → StandardBar P)
  | [], barMap => ([], barMap)
  | key :: rest, barMap =>
    let r := c.onMarketDataKey rv currentTime lastPrice volume isNewTick key (barMap key)
    let r' := BarCollector.onMarketDataLoop rv c currentTime lastPrice volume isNewTick rest
      (Function.update barMap key r.2)
    (r.1 ++ r'.1, r'.2)

/-- The outcome of a member function: the state afterwards, the side effects in
the order they happened, and the returned value. -/
structure Outcome (P : Type) (R : Type) where
  state : BarCollector P
  effects : List (Effect P)
  ret : R

/-- Member function `BarCollector::onMarketData`. -/
def BarCollector.onMarketData (rv : ResetValues P) (c : BarCollector P)
    (currentTime : Int) (lastPrice : P) (volume : Int) : Outcome P Bool :=
  let isNewTick : Bool := decide (volume ≠ c.lastVolume)
  let r := c.onMarketDataLoop rv currentTime lastPrice volume isNewTick c.keys c.barMap
  { state := { c with barMap := r.2, lastVolume := volume }
    effects := r.1
    ret := isNewTick }

/-- The loop of `BarCollector::flush`. -/
def BarCollector.flushLoop (rv : ResetValues P) (c : BarCollector P) (endOfDay : Bool) :
    List TimeFrame → (TimeFrame → StandardBar P) →
      List (Effect P) × (TimeFrame → StandardBar P)
  | [], barMap => ([], barMap)
  | key :: rest, barMap =>
    if key ≠ TimeFrame.DAY ∨ endOfDay then
      let r := c.saveEmitReset rv key (barMap key)
      let r' := BarCollector.flushLoop rv c endOfDay rest (Function.update barMap key r.2)
      (r.1 ++ r'.1, r'.2)
    else
      BarCollector.flushLoop rv c endOfDay rest barMap

/-- Member function `BarCollector::flush`. -/
def BarCollector.flush (rv : ResetValues P) (c : BarCollector P) (endOfDay : Bool) :
    Outcome P Unit :=
  let r := c.flushLoop rv endOfDay c.keys c.barMap
  { state := { c with barMap := r.2 }, effects := r.1, ret := () }

/-- The three externally triggered transitions of a collector. -/
inductive Call (P : Type) where
  | onMarketData (currentTime : Int) (lastPrice : P) (volume : Int)
  | setTradingDay (tradingDay : String)
  | flush (endOfDay : Bool)

/-- One call: the state afterwards and the side effects performed. -/
def BarCollector.call (rv : ResetValues P) (dateToUtcTimestamp2 : String → Int)
    (c : BarCollector P) : Call P → BarCollector P × List (Effect P)
  | .onMarketData currentTime lastPrice volume =>
    let r := c.onMarketData rv currentTime lastPrice volume
    (r.state, r.effects)
  | .setTradingDay tradingDay => (c.setTradingDay dateToUtcTimestamp2 tradingDay, [])
  | .flush endOfDay =>
    let r := c.flush rv endOfDay
    (r.state, r.effects)

/-- A finite sequence of calls, in order: the final state and all side effects
performed, in order. -/
def BarCollector.run (rv : ResetValues P) (dateToUtcTimestamp2 : String → Int) :
    BarCollector P → List (Call P) → BarCollector P × List (Effect P)
  | c, [] => (c, [])
  | c, x :: xs =>
    let r := c.call rv dateToUtcTimestamp2 x
    let r' := BarCollector.run rv dateToUtcTimestamp2 r.1 xs
    (r'.1, r.2 ++ r'.2)

/-- The values returned by the `onMarketData` calls of a sequence of calls, in
order (the other two member functions return nothing). -/
def BarCollector.returns (rv : ResetValues P) (dateToUtcTimestamp2 : String → Int) :
    BarCollector P → List (Call P) → List Bool
  | _, [] => []
  | c, x :: xs =>
    (match x with
      | .onMarketData currentTime lastPrice volume =>
        [(c.onMarketData rv currentTime lastPrice volume).ret]
      | .setTradingDay _ => []
      | .flush _ => [])
      ++ BarCollector.returns rv dateToUtcTimestamp2 (c.call rv dateToUtcTimestamp2 x).1 xs

end Operations

/-! ## Vocabulary of the specification -/

section Vocabulary

variable {P : Type}

/-- The bar carried by an effect. -/
def Effect.bar : Effect P → StandardBar P
  | .saveBarToDb _ _ bar => bar
  | .collectedBar _ _ bar => bar

/-- The bars handed to the event sink for timeframe `tf`, in order. -/
def emittedFor (tf : TimeFrame) (effects : List (Effect P)) : List (StandardBar P) :=
  effects.filterMap fun e =>
    match e with
    | .collectedBar _ k bar => if k = tf then some bar else none
    | .saveBarToDb _ _ _ => none

/-- The reset bar as the specification describes it: tick volume 0, volume 0,
high below and low above every price. -/
def IsResetBar [LinearOrder P] [BoundedOrder P] (bar : StandardBar P) : Prop :=
  bar.tick_volume = 0 ∧ bar.volume = 0 ∧ bar.high = ⊥ ∧ bar.low = ⊤

/-- The OHLC invariant: `low ≤ open ≤ high` and `low ≤ close ≤ high`. -/
def OHLC [LinearOrder P] (bar : StandardBar P) : Prop :=
  bar.low ≤ bar.open_ ∧ bar.open_ ≤ bar.high ∧ bar.low ≤ bar.close ∧ bar.close ≤ bar.high

/-- The bar after the roll-over test of `onMarketData`: reset when a non-empty
bar belongs to another bucket, untouched otherwise. -/
def rolled [LinearOrder P] [BoundedOrder P] (rv : ResetValues P) (bucket : Int)
    (bar : StandardBar P) : StandardBar P :=
  if bucket ≠ bar.time ∧ bar.isEmpty = false then StandardBar.reset rv else bar

/-- The update of the open bar by a genuine trade (`onMarketData`, after the
roll-over test). -/
def updated [LinearOrder P] (bucket : Int) (lastPrice : P) (delta : Int)
    (bar : StandardBar P) : StandardBar P :=
  { time := if bar.isEmpty then bucket else bar.time
    open_ := if bar.isEmpty then lastPrice else bar.open_
    high := max bar.high lastPrice
    low := min bar.low lastPrice
    close := lastPrice
    tick_volume := bar.tick_volume + 1
    volume := bar.volume + delta }

/-- A market-data tick: timestamp, last price, cumulative volume. -/
structure Tick (P : Type) where
  time : Int
  lastPrice : P
  volume : Int

/-- The call `onMarketData` made for a tick. -/
def Tick.toCall (tk : Tick P) : Call P :=
  Call.onMarketData tk.time tk.lastPrice tk.volume

/-- Every non-empty bar of the map satisfies the OHLC invariant. -/
def BarsOHLC [LinearOrder P] (m : TimeFrame → StandardBar P) : Prop :=
  ∀ tf, (m tf).isEmpty = false → OHLC (m tf)

/-- The sum of `volume_i − volume_{i-1}` over the genuine-trade ticks
(`volume_i ≠ volume_{i-1}`) of the list whose bucket start is `b`; `prev` is the
cumulative volume seen before the first tick of the list. -/
def genuineVolume (bucket : Tick P → Int) (b : Int) : Int → List (Tick P) → Int
  | _, [] => 0
  | prev, tk :: rest =>
    (if tk.volume ≠ prev ∧ bucket tk = b then tk.volume - prev else 0)
      + genuineVolume bucket b tk.volume rest

/-- The bucket starts of the genuine-trade ticks of the list, in order; `prev` is
the cumulative volume seen before the first tick of the list. -/
def genuineBuckets (bucket : Tick P → Int) : Int → List (Tick P) → List Int
  | _, [] => []
  | prev, tk :: rest =>
    (if tk.volume ≠ prev then [bucket tk] else []) ++ genuineBuckets bucket tk.volume rest

/-- The sum of the volume fields of a list of bars. -/
def volumeSum (bars : List (StandardBar P)) : Int :=
  (bars.map StandardBar.volume).sum

/-- The cumulative volume of the last tick of a sequence, 0 for the empty
sequence. -/
def lastCumulativeVolume (ticks : List (Tick P)) : Int :=
  (ticks.getLast?.map Tick.volume).getD 0

/-- Two collectors agree on what the processing of timeframe `tf` reads: the bar
of `tf`, `lastVolume`, `tradingDayBase` and the session mode. -/
def AgreeOn (tf : TimeFrame) (c1 c2 : BarCollector P) : Prop :=
  c1.barMap tf = c2.barMap tf ∧ c1.lastVolume = c2.lastVolume ∧
    c1.tradingDayBase = c2.tradingDayBase ∧ c1.isStockLike = c2.isStockLike

end Vocabulary

/-! ## Concrete prices for the examples -/

/-- Rational prices between the two sentinels. -/
abbrev Px := WithBot (WithTop ℚ)

/-- A rational number as a price. -/
def px (q : ℚ) : Px := ((q : WithTop ℚ) : WithBot (WithTop ℚ))

/-- A choice of reset values used in the concrete examples. -/
def sampleReset : ResetValues Px := { time := 0, open_ := px 0, close := px 0 }

/-- A fresh collector tracking only the 1-minute timeframe of a continuous
market. -/
def sampleFresh : BarCollector Px :=
  BarCollector.init sampleReset "rb1910" [TimeFrame.MIN1] false false 0

/-- The three ticks of the end-to-end example. -/
def sampleTicks : List (Tick Px) :=
  [{ time := 0, lastPrice := px 10.0, volume := 1 },
   { time := 30, lastPrice := px 10.5, volume := 2 },
   { time := 61, lastPrice := px 9.0, volume := 3 }]

/-- Three ticks in three consecutive 1-minute buckets; the second one is a quote
refresh that repeats the cumulative volume of the first. -/
def sampleQuoteTicks : List (Tick Px) :=
  [{ time := 0, lastPrice := px 10.0, volume := 1 },
   { time := 61, lastPrice := px 10.0, volume := 1 },
   { time := 121, lastPrice := px 10.5, volume := 2 }]

/-- A sequence of calls: the three ticks of the end-to-end example, a change of
trading day, and an end-of-day flush. -/
def sampleCalls : List (Call Px) :=
  sampleTicks.map Tick.toCall ++ [Call.setTradingDay "20190808", Call.flush true]

/-- A collector tracking the 1-minute and the day timeframe whose two bars are
open: the state `sampleOpen` with the day-class bar added. -/
def sampleTwoBars : BarCollector Px :=
  { instrument := "rb1910"
    saveBarsToDB := false
    keys := [TimeFrame.DAY, TimeFrame.MIN1]
    barMap := fun tf =>
      if tf = TimeFrame.DAY ∨ tf = TimeFrame.MIN1 then
        { time := 0, open_ := px 10.0, high := px 10.0, low := px 10.0, close := px 10.0,
          tick_volume := 1, volume := 1 }
      else StandardBar.reset sampleReset
    isStockLike := false
    tradingDayBase := 0
    lastVolume := 1 }

/-- The state of `sampleFresh` after the tick `(t = 0, price = 10.0, vol = 1)`:
the 1-minute bar of bucket 0 is open. -/
def sampleOpen : BarCollector Px :=
  { instrument := "rb1910"
    saveBarsToDB := false
    keys := [TimeFrame.MIN1]
    barMap := fun tf =>
      if tf = TimeFrame.MIN1 then
        { time := 0, open_ := px 10.0, high := px 10.0, low := px 10.0, close := px 10.0,
          tick_volume := 1, volume := 1 }
      else StandardBar.reset sampleReset
    isStockLike := false
    tradingDayBase := 0
    lastVolume := 1 }

/-! ## Basic facts about the effect lists and the loops -/

section EffectLists

variable {P : Type}

theorem emittedFor_nil (tf : TimeFrame) : emittedFor tf ([] : List (Effect P)) = [] := rfl

theorem emittedFor_append (tf : TimeFrame) (xs ys : List (Effect P)) :
    emittedFor tf (xs ++ ys) = emittedFor tf xs ++ emittedFor tf ys := by
  simp [emittedFor, List.filterMap_append]

end EffectLists

section Basics

variable {P : Type} [LinearOrder P] [BoundedOrder P]

theorem emittedFor_saveEmitReset (rv : ResetValues P) (c : BarCollector P)
    (tf key : TimeFrame) (bar : StandardBar P) :
    emittedFor tf (c.saveEmitReset rv key bar).1
      = if key = tf ∧ bar.isEmpty = false then [bar] else [] := by
  unfold BarCollector.saveEmitReset
  cases hE : bar.isEmpty <;> cases hS : c.saveBarsToDB <;> by_cases hk : key = tf <;>
    simp [emittedFor, hk]

theorem saveEmitReset_snd (rv : ResetValues P) (c : BarCollector P)
    (key : TimeFrame) (bar : StandardBar P) :
    (c.saveEmitReset rv key bar).2 = if bar.isEmpty = false then StandardBar.reset rv else bar := by
  unfold BarCollector.saveEmitReset
  cases hE : bar.isEmpty <;> simp

theorem reset_isEmpty (rv : ResetValues P) : (StandardBar.reset rv).isEmpty = true := by
  simp [StandardBar.reset, StandardBar.isEmpty]

theorem onMarketDataKey_fst (rv : ResetValues P) (c : BarCollector P) (t : Int) (p : P)
    (v : Int) (isNew : Bool) (tf key : TimeFrame) (bar : StandardBar P) :
    emittedFor tf (c.onMarketDataKey rv t p v isNew key bar).1
      = if key = tf ∧ c.getTimeFrameBegin t key ≠ bar.time ∧ bar.isEmpty = false
          then [bar] else [] := by
  unfold BarCollector.onMarketDataKey
  by_cases hb : c.getTimeFrameBegin t key = bar.time <;> cases isNew <;>
    simp [hb, emittedFor_saveEmitReset, emittedFor_nil]

theorem onMarketDataKey_snd (rv : ResetValues P) (c : BarCollector P) (t : Int) (p : P)
    (v : Int) (isNew : Bool) (key : TimeFrame) (bar : StandardBar P) :
    (c.onMarketDataKey rv t p v isNew key bar).2
      = if isNew then
          updated (c.getTimeFrameBegin t key) p (v - c.lastVolume)
            (rolled rv (c.getTimeFrameBegin t key) bar)
        else rolled rv (c.getTimeFrameBegin t key) bar := by
  unfold BarCollector.onMarketDataKey rolled
  have key_eq : (if c.getTimeFrameBegin t key ≠ bar.time then c.saveEmitReset rv key bar
      else ([], bar)).2
      = if c.getTimeFrameBegin t key ≠ bar.time ∧ bar.isEmpty = false
          then StandardBar.reset rv else bar := by
    by_cases hb : c.getTimeFrameBegin t key = bar.time <;>
      cases hE : bar.isEmpty <;> simp [hb, hE, saveEmitReset_snd]
  cases isNew
  · simp only [Bool.not_false, if_true]
    exact key_eq
  · simp only [Bool.not_true, Bool.false_eq_true, if_false, if_true]
    rw [key_eq]
    generalize (if c.getTimeFrameBegin t key ≠ bar.time ∧ bar.isEmpty = false
          then StandardBar.reset rv else bar) = b
    unfold updated
    cases hE : b.isEmpty <;> by_cases h1 : b.high < p <;> by_cases h2 : p < b.low <;>
      simp [hE, h1, h2, max_def, min_def, not_lt.mp, le_of_lt]

theorem saveEmitReset_effects_bar (rv : ResetValues P) (c : BarCollector P)
    (key : TimeFrame) (bar : StandardBar P) (e : Effect P)
    (he : e ∈ (c.saveEmitReset rv key bar).1) : e.bar = bar ∧ bar.isEmpty = false := by
  unfold BarCollector.saveEmitReset at he
  cases hE : bar.isEmpty
  · cases hS : c.saveBarsToDB <;> simp [hE, hS] at he
    · subst he; exact ⟨rfl, rfl⟩
    · rcases he with he | he <;> subst he <;> exact ⟨rfl, rfl⟩
  · simp [hE] at he

theorem onMarketDataKey_effects_bar (rv : ResetValues P) (c : BarCollector P) (t : Int)
    (p : P) (v : Int) (isNew : Bool) (key : TimeFrame) (bar : StandardBar P) (e : Effect P)
    (he : e ∈ (c.onMarketDataKey rv t p v isNew key bar).1) :
    e.bar = bar ∧ bar.isEmpty = false := by
  unfold BarCollector.onMarketDataKey at he
  by_cases hb : c.getTimeFrameBegin t key = bar.time
  · cases isNew <;> simp [hb] at he
  · cases isNew <;> simp [hb] at he <;> exact saveEmitReset_effects_bar rv c key bar e he

theorem onMarketDataLoop_snd_of_not_mem (rv : ResetValues P) (c : BarCollector P) (t : Int)
    (p : P) (v : Int) (isNew : Bool) (tf : TimeFrame) :
    ∀ (ks : List TimeFrame) (m : TimeFrame → StandardBar P), tf ∉ ks →
      (c.onMarketDataLoop rv t p v isNew ks m).2 tf = m tf := by
  intro ks
  induction ks with
  | nil => intro m _; rfl
  | cons k ks ih =>
    intro m h
    have hk : tf ≠ k := fun e => h (e ▸ List.mem_cons_self _ _)
    have hks : tf ∉ ks := fun e => h (List.mem_cons_of_mem _ e)
    simp only [BarCollector.onMarketDataLoop]
    rw [ih _ hks, Function.update_noteq hk]

theorem onMarketDataLoop_snd_of_mem (rv : ResetValues P) (c : BarCollector P) (t : Int)
    (p : P) (v : Int) (isNew : Bool) (tf : TimeFrame) :
    ∀ (ks : List TimeFrame) (m : TimeFrame → StandardBar P), ks.Nodup → tf ∈ ks →
      (c.onMarketDataLoop rv t p v isNew ks m).2 tf
        = (c.onMarketDataKey rv t p v isNew tf (m tf)).2 := by
  intro ks
  induction ks with
  | nil => intro m _ h; cases h
  | cons k ks ih =>
    intro m hnd h
    have hk_notin : k ∉ ks := (List.nodup_cons.mp hnd).1
    have hnd' : ks.Nodup := (List.nodup_cons.mp hnd).2
    simp only [BarCollector.onMarketDataLoop]
    by_cases hk : tf = k
    · subst hk
      rw [onMarketDataLoop_snd_of_not_mem rv c t p v isNew tf ks _ hk_notin,
        Function.update_same]
    · have hmem : tf ∈ ks := by
        rcases List.mem_cons.mp h with h | h
        · exact absurd h hk
        · exact h
      rw [ih _ hnd' hmem, Function.update_noteq hk]

theorem onMarketDataLoop_fst_of_not_mem (rv : ResetValues P) (c : BarCollector P) (t : Int)
    (p : P) (v : Int) (isNew : Bool) (tf : TimeFrame) :
    ∀ (ks : List TimeFrame) (m : TimeFrame → StandardBar P), tf ∉ ks →
      emittedFor tf (c.onMarketDataLoop rv t p v isNew ks m).1 = [] := by
  intro ks
  induction ks with
  | nil => intro m _; rfl
  | cons k ks ih =>
    intro m h
    have hk : ¬ k = tf := fun e => h (e ▸ List.mem_cons_self _ _)
    have hks : tf ∉ ks := fun e => h (List.mem_cons_of_mem _ e)
    simp only [BarCollector.onMarketDataLoop]
    rw [emittedFor_append, ih _ hks, onMarketDataKey_fst]
    simp [hk]

theorem onMarketDataLoop_fst_of_mem (rv : ResetValues P) (c : BarCollector P) (t : Int)
    (p : P) (v : Int) (isNew : Bool) (tf : TimeFrame) :
    ∀ (ks : List TimeFrame) (m : TimeFrame → StandardBar P), ks.Nodup → tf ∈ ks →
      emittedFor tf (c.onMarketDataLoop rv t p v isNew ks m).1
        = emittedFor tf (c.onMarketDataKey rv t p v isNew tf (m tf)).1 := by
  intro ks
  induction ks with
  | nil => intro m _ h; cases h
  | cons k ks ih =>
    intro m hnd h
    have hk_notin : k ∉ ks := (List.nodup_cons.mp hnd).1
    have hnd' : ks.Nodup := (List.nodup_cons.mp hnd).2
    simp only [BarCollector.onMarketDataLoop]
    rw [emittedFor_append]
    by_cases hk : tf = k
    · subst hk
      rw [onMarketDataLoop_fst_of_not_mem rv c t p v isNew tf ks _ hk_notin,
        List.append_nil]
    · have hmem : tf ∈ ks := by
        rcases List.mem_cons.mp h with h | h
        · exact absurd h hk
        · exact h
      have hk' : ¬ k = tf := fun e => hk e.symm
      rw [ih _ hnd' hmem, Function.update_noteq hk, onMarketDataKey_fst rv c t p v isNew tf k]
      simp [hk']

theorem rolled_of_ne (rv : ResetValues P) (bucket : Int) (bar : StandardBar P)
    (hb : bucket ≠ bar.time) (hE : bar.isEmpty = false) :
    rolled rv bucket bar = StandardBar.reset rv := by
  simp [rolled, hb, hE]

theorem rolled_of_eq (rv : ResetValues P) (bucket : Int) (bar : StandardBar P)
    (hb : bucket = bar.time) : rolled rv bucket bar = bar := by
  simp [rolled, hb]

theorem rolled_of_isEmpty (rv : ResetValues P) (bucket : Int) (bar : StandardBar P)
    (hE : bar.isEmpty = true) : rolled rv bucket bar = bar := by
  simp [rolled, hE]

theorem updated_reset (rv : ResetValues P) (bucket : Int) (p : P) (delta : Int) :
    updated bucket p delta (StandardBar.reset rv)
      = { time := bucket, open_ := p, high := p, low := p, close := p,
          tick_volume := 1, volume := delta } := by
  simp [updated, StandardBar.reset, StandardBar.isEmpty]

/-- What `onMarketData` does to the bar of a configured timeframe. -/
theorem onMarketData_barMap (rv : ResetValues P) (c : BarCollector P) (t : Int) (p : P)
    (v : Int) (tf : TimeFrame) (hk : c.keys.Nodup) (htf : tf ∈ c.keys) :
    (c.onMarketData rv t p v).state.barMap tf
      = if v ≠ c.lastVolume then
          updated (c.getTimeFrameBegin t tf) p (v - c.lastVolume)
            (rolled rv (c.getTimeFrameBegin t tf) (c.barMap tf))
        else rolled rv (c.getTimeFrameBegin t tf) (c.barMap tf) := by
  simp only [BarCollector.onMarketData]
  rw [onMarketDataLoop_snd_of_mem rv c t p v _ tf c.keys c.barMap hk htf, onMarketDataKey_snd]
  by_cases hv : v = c.lastVolume <;> simp [hv]

/-- What `onMarketData` hands to the event sink for a configured timeframe. -/
theorem onMarketData_emittedFor (rv : ResetValues P) (c : BarCollector P) (t : Int) (p : P)
    (v : Int) (tf : TimeFrame) (hk : c.keys.Nodup) (htf : tf ∈ c.keys) :
    emittedFor tf (c.onMarketData rv t p v).effects
      = if c.getTimeFrameBegin t tf ≠ (c.barMap tf).time ∧ (c.barMap tf).isEmpty = false
          then [c.barMap tf] else [] := by
  simp only [BarCollector.onMarketData]
  rw [onMarketDataLoop_fst_of_mem rv c t p v _ tf c.keys c.barMap hk htf, onMarketDataKey_fst]
  simp

end Basics

/-! ## The end-to-end example and the per-tick contracts -/

section Examples

theorem px_lt_px (a b : ℚ) : px a < px b ↔ a < b := by simp [px]

theorem bot_lt_px (a : ℚ) : (⊥ : Px) < px a := by simp [px]

theorem px_lt_top (a : ℚ) : px a < (⊤ : Px) :=
  WithBot.coe_lt_coe.mpr (WithTop.coe_lt_top a)

/-- The state `sampleOpen` is the one `sampleFresh` reaches with the tick
(0, 10.0, 1). -/
theorem sampleOpen_reached :
    (∀ tf, (sampleFresh.onMarketData sampleReset 0 (px 10.0) 1).state.barMap tf
      = sampleOpen.barMap tf) ∧
    (sampleFresh.onMarketData sampleReset 0 (px 10.0) 1).state.lastVolume
      = sampleOpen.lastVolume ∧
    (sampleFresh.onMarketData sampleReset 0 (px 10.0) 1).state.keys = sampleOpen.keys ∧
    (sampleFresh.onMarketData sampleReset 0 (px 10.0) 1).state.isStockLike
      = sampleOpen.isStockLike ∧
    (sampleFresh.onMarketData sampleReset 0 (px 10.0) 1).state.tradingDayBase
      = sampleOpen.tradingDayBase := by
  refine ⟨fun tf => ?_, rfl, rfl, rfl, rfl⟩
  by_cases h : tf = TimeFrame.MIN1
  · subst h
    have e3 : ¬ TimeFrame.MIN1 = TimeFrame.DAY := by decide
    norm_num [sampleFresh, sampleOpen, sampleReset, BarCollector.init,
      BarCollector.onMarketData, BarCollector.onMarketDataLoop, BarCollector.onMarketDataKey,
      BarCollector.saveEmitReset, BarCollector.getTimeFrameBegin, StandardBar.reset,
      StandardBar.isEmpty, g_time_table, MIN_UNIT, HOUR_UNIT, bot_lt_px, px_lt_top, e3]
  · simp only [BarCollector.onMarketData]
    rw [onMarketDataLoop_snd_of_not_mem sampleReset sampleFresh 0 (px 10.0) 1 _ tf
      sampleFresh.keys sampleFresh.barMap (by simpa [sampleFresh, BarCollector.init] using h)]
    simp [sampleFresh, sampleOpen, BarCollector.init, h]

/-- C1: a fresh collector tracking only the 1-minute timeframe of a continuous
market, fed the ticks (0, 10.0, 1), (30, 10.5, 2), (61, 9.0, 3): the first two
calls perform no effect and leave the bar (0; 10.0, 10.5, 10.0, 10.5; 2; 2); the
third call hands exactly that bar to the sinks and leaves the bar
(60; 9.0, 9.0, 9.0, 9.0; 1; 1); all three calls return true. -/
theorem end_to_end_example (rv : ResetValues Px) (instr : String) (save : Bool)
    (tdb : Int) :
    let c0 : BarCollector Px := BarCollector.init rv instr [TimeFrame.MIN1] save false tdb
    let r1 := c0.onMarketData rv 0 (px 10.0) 1
    let r2 := r1.state.onMarketData rv 30 (px 10.5) 2
    let r3 := r2.state.onMarketData rv 61 (px 9.0) 3
    let bar1 : StandardBar Px :=
      { time := 0, open_ := px 10.0, high := px 10.5, low := px 10.0, close := px 10.5,
        tick_volume := 2, volume := 2 }
    let bar2 : StandardBar Px :=
      { time := 60, open_ := px 9.0, high := px 9.0, low := px 9.0, close := px 9.0,
        tick_volume := 1, volume := 1 }
    c0.lastVolume = 0 ∧ (∀ tf, (c0.barMap tf).isEmpty = true) ∧
    r1.effects = [] ∧ r2.effects = [] ∧ r2.state.barMap TimeFrame.MIN1 = bar1 ∧
    r3.effects = (if save then [Effect.saveBarToDb instr TimeFrame.MIN1 bar1] else [])
        ++ [Effect.collectedBar instr TimeFrame.MIN1 bar1] ∧
    r3.state.barMap TimeFrame.MIN1 = bar2 ∧
    r1.ret = true ∧ r2.ret = true ∧ r3.ret = true := by
  have e1 : Int.tdiv 30 60 = 0 := by decide
  have e2 : Int.tdiv 61 60 = 1 := by decide
  have e3 : ¬ TimeFrame.MIN1 = TimeFrame.DAY := by decide
  norm_num [BarCollector.init, BarCollector.onMarketData, BarCollector.onMarketDataLoop,
    BarCollector.onMarketDataKey, BarCollector.saveEmitReset, BarCollector.getTimeFrameBegin,
    StandardBar.reset, StandardBar.isEmpty, g_time_table, MIN_UNIT, HOUR_UNIT, px_lt_px,
    bot_lt_px, px_lt_top, e1, e2, e3]

end Examples

section Contracts

variable {P : Type} [LinearOrder P] [BoundedOrder P]

/-- C2: a genuine trade (`volume ≠ lastVolume`) falling into the bucket of a
non-empty bar of a configured timeframe updates that bar in place: high and low
absorb the price, close is the price, tick volume grows by one, volume grows by
the volume delta, bucket start and open stay, and nothing is emitted for the
timeframe. -/
theorem genuine_trade_updates_open_bar (rv : ResetValues P) (c : BarCollector P) (t : Int)
    (p : P) (v : Int) (tf : TimeFrame) (hk : c.keys.Nodup) (htf : tf ∈ c.keys)
    (hne : (c.barMap tf).isEmpty = false)
    (hb : (c.barMap tf).time = c.getTimeFrameBegin t tf) (hv : v ≠ c.lastVolume) :
    ((c.onMarketData rv t p v).state.barMap tf).high = max (c.barMap tf).high p ∧
    ((c.onMarketData rv t p v).state.barMap tf).low = min (c.barMap tf).low p ∧
    ((c.onMarketData rv t p v).state.barMap tf).close = p ∧
    ((c.onMarketData rv t p v).state.barMap tf).tick_volume = (c.barMap tf).tick_volume + 1 ∧
    ((c.onMarketData rv t p v).state.barMap tf).volume
      = (c.barMap tf).volume + (v - c.lastVolume) ∧
    ((c.onMarketData rv t p v).state.barMap tf).time = (c.barMap tf).time ∧
    ((c.onMarketData rv t p v).state.barMap tf).open_ = (c.barMap tf).open_ ∧
    emittedFor tf (c.onMarketData rv t p v).effects = [] := by
  rw [onMarketData_barMap rv c t p v tf hk htf, onMarketData_emittedFor rv c t p v tf hk htf]
  simp [hv, rolled, updated, hne, hb]

/-- Witness for C2: the open 1-minute bar of `sampleOpen` and the tick
(30, 10.5, 2). -/
theorem genuine_trade_updates_open_bar_witness :
    (sampleOpen.keys.Nodup ∧ TimeFrame.MIN1 ∈ sampleOpen.keys ∧
      (sampleOpen.barMap TimeFrame.MIN1).isEmpty = false ∧
      (sampleOpen.barMap TimeFrame.MIN1).time
        = sampleOpen.getTimeFrameBegin 30 TimeFrame.MIN1 ∧
      (2 : Int) ≠ sampleOpen.lastVolume) ∧
    ((sampleOpen.onMarketData sampleReset 30 (px 10.5) 2).state.barMap TimeFrame.MIN1).tick_volume
      = 2 ∧
    ((sampleOpen.onMarketData sampleReset 30 (px 10.5) 2).state.barMap TimeFrame.MIN1).volume
      = 2 ∧
    ((sampleOpen.onMarketData sampleReset 30 (px 10.5) 2).state.barMap TimeFrame.MIN1).close
      = px 10.5 ∧
    emittedFor TimeFrame.MIN1 (sampleOpen.onMarketData sampleReset 30 (px 10.5) 2).effects
      = [] :=
  have h := genuine_trade_updates_open_bar sampleReset sampleOpen 30 (px 10.5) 2
    TimeFrame.MIN1 (by decide) (by decide) (by decide) (by decide) (by decide)
  ⟨⟨by decide, by decide, by decide, by decide, by decide⟩,
    h.2.2.2.1, h.2.2.2.2.1, h.2.2.1, h.2.2.2.2.2.2.2⟩

/-- C3: a genuine trade arriving at a configured timeframe whose bar is the reset
bar, or is non-empty with another bucket start, leaves the bar opened by this
tick alone: bucket start is the computed one, the four prices are the tick price,
tick volume is 1 and volume is the volume delta; a non-empty bar is emitted once,
with its value before the tick, an empty one is not emitted. -/
theorem genuine_trade_opens_bar (rv : ResetValues P) (c : BarCollector P) (t : Int)
    (p : P) (v : Int) (tf : TimeFrame) (hk : c.keys.Nodup) (htf : tf ∈ c.keys)
    (hv : v ≠ c.lastVolume)
    (hbar : IsResetBar (c.barMap tf) ∨
      ((c.barMap tf).isEmpty = false ∧ (c.barMap tf).time ≠ c.getTimeFrameBegin t tf)) :
    (c.onMarketData rv t p v).state.barMap tf
      = { time := c.getTimeFrameBegin t tf, open_ := p, high := p, low := p, close := p,
          tick_volume := 1, volume := v - c.lastVolume } ∧
    emittedFor tf (c.onMarketData rv t p v).effects
      = if (c.barMap tf).isEmpty = false then [c.barMap tf] else [] := by
  rw [onMarketData_barMap rv c t p v tf hk htf, onMarketData_emittedFor rv c t p v tf hk htf]
  rcases hbar with ⟨h1, h2, h3, h4⟩ | ⟨h1, h2⟩
  · have hE : (c.barMap tf).isEmpty = true := by simp [StandardBar.isEmpty, h1]
    simp [hv, rolled, updated, hE, h1, h2, h3, h4]
  · have h2' : c.getTimeFrameBegin t tf ≠ (c.barMap tf).time := fun e => h2 e.symm
    rw [rolled_of_ne rv _ _ h2' h1, updated_reset]
    simp [hv, h1, h2']

/-- Witness for C3: the open 1-minute bar of `sampleOpen` (bucket 0) and the tick
(61, 9.0, 3) of bucket 60. -/
theorem genuine_trade_opens_bar_witness :
    (sampleOpen.keys.Nodup ∧ TimeFrame.MIN1 ∈ sampleOpen.keys ∧
      (3 : Int) ≠ sampleOpen.lastVolume ∧
      (sampleOpen.barMap TimeFrame.MIN1).isEmpty = false ∧
      (sampleOpen.barMap TimeFrame.MIN1).time
        ≠ sampleOpen.getTimeFrameBegin 61 TimeFrame.MIN1) ∧
    (sampleOpen.onMarketData sampleReset 61 (px 9.0) 3).state.barMap TimeFrame.MIN1
      = { time := 60, open_ := px 9.0, high := px 9.0, low := px 9.0, close := px 9.0,
          tick_volume := 1, volume := 2 } ∧
    emittedFor TimeFrame.MIN1 (sampleOpen.onMarketData sampleReset 61 (px 9.0) 3).effects
      = [sampleOpen.barMap TimeFrame.MIN1] :=
  have h := genuine_trade_opens_bar sampleReset sampleOpen 61 (px 9.0) 3 TimeFrame.MIN1
    (by decide) (by decide) (by decide) (Or.inr ⟨by decide, by decide⟩)
  ⟨⟨by decide, by decide, by decide, by decide, by decide⟩, h.1, h.2⟩

/-- Counterexample to C4 as stated: the tick (61, 10.0, 1) carries the cumulative
volume `sampleOpen` saw last, yet the 1-minute bar of bucket 0 changes: its tick
volume goes from 1 to 0 and its volume from 1 to 0. -/
theorem non_trade_tick_changes_bar :
    (1 : Int) = sampleOpen.lastVolume ∧ TimeFrame.MIN1 ∈ sampleOpen.keys ∧
    (sampleOpen.barMap TimeFrame.MIN1).tick_volume = 1 ∧
    (sampleOpen.barMap TimeFrame.MIN1).volume = 1 ∧
    ((sampleOpen.onMarketData sampleReset 61 (px 10.0) 1).state.barMap
      TimeFrame.MIN1).tick_volume = 0 ∧
    ((sampleOpen.onMarketData sampleReset 61 (px 10.0) 1).state.barMap
      TimeFrame.MIN1).volume = 0 := by
  refine ⟨by decide, by decide, by decide, by decide, ?_, ?_⟩ <;>
    · rw [onMarketData_barMap sampleReset sampleOpen 61 (px 10.0) 1 TimeFrame.MIN1
        (by decide) (by decide)]
      rw [if_neg (by decide), rolled_of_ne sampleReset _ _ (by decide) (by decide)]
      rfl

/-- C4 (amended): a tick with `volume = lastVolume`, at a configured timeframe:
when the bar is empty or belongs to the tick's bucket, the bar is left exactly
as it was and nothing is emitted for the timeframe; when a non-empty bar belongs
to another bucket, the bar is emitted exactly once with its value before the
tick and is reset to the empty bar (the new bucket is not opened). -/
theorem non_trade_tick_keeps_or_resets_bar (rv : ResetValues P) (c : BarCollector P)
    (t : Int) (p : P) (v : Int) (tf : TimeFrame) (hk : c.keys.Nodup) (htf : tf ∈ c.keys)
    (hv : v = c.lastVolume) :
    (((c.barMap tf).isEmpty = true ∨ (c.barMap tf).time = c.getTimeFrameBegin t tf) →
      (c.onMarketData rv t p v).state.barMap tf = c.barMap tf ∧
      emittedFor tf (c.onMarketData rv t p v).effects = []) ∧
    (((c.barMap tf).isEmpty = false ∧ (c.barMap tf).time ≠ c.getTimeFrameBegin t tf) →
      (c.onMarketData rv t p v).state.barMap tf = StandardBar.reset rv ∧
      ((c.onMarketData rv t p v).state.barMap tf).isEmpty = true ∧
      emittedFor tf (c.onMarketData rv t p v).effects = [c.barMap tf]) := by
  rw [onMarketData_barMap rv c t p v tf hk htf, onMarketData_emittedFor rv c t p v tf hk htf]
  constructor
  · rintro (h | h)
    · simp [hv, rolled, h]
    · simp [hv, rolled, h]
  · rintro ⟨h1, h2⟩
    have h2' : ¬ c.getTimeFrameBegin t tf = (c.barMap tf).time := fun e => h2 e.symm
    simp [hv, rolled, h1, h2', reset_isEmpty]

/-- Witness for C4 (amended), both cases on the open bucket-0 bar of
`sampleOpen`: the non-trade tick (30, 10.0, 1) inside bucket 0 leaves the bar as
it is and emits nothing; the non-trade tick (90, 10.0, 1) of bucket 60 emits the
bar and resets it. -/
theorem non_trade_tick_keeps_or_resets_bar_witness :
    (sampleOpen.keys.Nodup ∧ TimeFrame.MIN1 ∈ sampleOpen.keys ∧
      (1 : Int) = sampleOpen.lastVolume ∧
      (sampleOpen.barMap TimeFrame.MIN1).isEmpty = false ∧
      (sampleOpen.barMap TimeFrame.MIN1).time
        = sampleOpen.getTimeFrameBegin 30 TimeFrame.MIN1 ∧
      (sampleOpen.barMap TimeFrame.MIN1).time
        ≠ sampleOpen.getTimeFrameBegin 90 TimeFrame.MIN1) ∧
    ((sampleOpen.onMarketData sampleReset 30 (px 10.0) 1).state.barMap TimeFrame.MIN1
        = sampleOpen.barMap TimeFrame.MIN1 ∧
      emittedFor TimeFrame.MIN1 (sampleOpen.onMarketData sampleReset 30 (px 10.0) 1).effects
        = []) ∧
    ((sampleOpen.onMarketData sampleReset 90 (px 10.0) 1).state.barMap TimeFrame.MIN1
        = StandardBar.reset sampleReset ∧
      ((sampleOpen.onMarketData sampleReset 90 (px 10.0) 1).state.barMap
        TimeFrame.MIN1).isEmpty = true ∧
      emittedFor TimeFrame.MIN1 (sampleOpen.onMarketData sampleReset 90 (px 10.0) 1).effects
        = [sampleOpen.barMap TimeFrame.MIN1]) :=
  ⟨⟨by decide, by decide, by decide, by decide, by decide, by decide⟩,
    (non_trade_tick_keeps_or_resets_bar sampleReset sampleOpen 30 (px 10.0) 1
      TimeFrame.MIN1 (by decide) (by decide) (by decide)).1 (Or.inr (by decide)),
    (non_trade_tick_keeps_or_resets_bar sampleReset sampleOpen 90 (px 10.0) 1
      TimeFrame.MIN1 (by decide) (by decide) (by decide)).2 ⟨by decide, by decide⟩⟩

end Contracts

/-! ## The OHLC invariant -/

section InvariantOrder

variable {P : Type} [LinearOrder P]

theorem updated_ohlc (bucket : Int) (p : P) (delta : Int) (bar : StandardBar P)
    (h : bar.isEmpty = false → OHLC bar) : OHLC (updated bucket p delta bar) := by
  unfold updated OHLC
  cases hE : bar.isEmpty
  · obtain ⟨h1, h2, _, _⟩ := h hE
    simp only [Bool.false_eq_true, if_false]
    exact ⟨le_trans (min_le_left _ _) h1, le_trans h2 (le_max_left _ _),
      min_le_right _ _, le_max_right _ _⟩
  · simp only [if_true]
    exact ⟨min_le_right _ _, le_max_right _ _, min_le_right _ _, le_max_right _ _⟩

theorem barsOHLC_update (m : TimeFrame → StandardBar P) (key : TimeFrame)
    (bar : StandardBar P) (hm : BarsOHLC m) (hb : bar.isEmpty = false → OHLC bar) :
    BarsOHLC (Function.update m key bar) := by
  intro tf
  by_cases htf : tf = key
  · subst htf
    rw [Function.update_same]
    exact hb
  · rw [Function.update_noteq htf]
    exact hm tf

end InvariantOrder

section Invariant

variable {P : Type} [LinearOrder P] [BoundedOrder P]

theorem rolled_ohlc (rv : ResetValues P) (bucket : Int) (bar : StandardBar P)
    (h : bar.isEmpty = false → OHLC bar) :
    (rolled rv bucket bar).isEmpty = false → OHLC (rolled rv bucket bar) := by
  unfold rolled
  split
  · intro he
    rw [reset_isEmpty] at he
    cases he
  · exact h

theorem onMarketDataKey_ohlc (rv : ResetValues P) (c : BarCollector P) (t : Int) (p : P)
    (v : Int) (isNew : Bool) (key : TimeFrame) (bar : StandardBar P)
    (h : bar.isEmpty = false → OHLC bar) :
    (c.onMarketDataKey rv t p v isNew key bar).2.isEmpty = false →
      OHLC (c.onMarketDataKey rv t p v isNew key bar).2 := by
  rw [onMarketDataKey_snd]
  cases isNew
  · simpa using rolled_ohlc rv _ bar h
  · intro _
    simpa using updated_ohlc _ p _ _ (rolled_ohlc rv (c.getTimeFrameBegin t key) bar h)

theorem onMarketDataLoop_ohlc (rv : ResetValues P) (c : BarCollector P) (t : Int) (p : P)
    (v : Int) (isNew : Bool) :
    ∀ (ks : List TimeFrame) (m : TimeFrame → StandardBar P), BarsOHLC m →
      BarsOHLC (c.onMarketDataLoop rv t p v isNew ks m).2 ∧
      ∀ e ∈ (c.onMarketDataLoop rv t p v isNew ks m).1, OHLC e.bar := by
  intro ks
  induction ks with
  | nil =>
    intro m hm
    exact ⟨hm, fun e he => by cases he⟩
  | cons k ks ih =>
    intro m hm
    simp only [BarCollector.onMarketDataLoop]
    have hstep := ih (Function.update m k (c.onMarketDataKey rv t p v isNew k (m k)).2)
      (barsOHLC_update m k _ hm (onMarketDataKey_ohlc rv c t p v isNew k (m k) (hm k)))
    refine ⟨hstep.1, fun e he => ?_⟩
    rcases List.mem_append.mp he with he | he
    · obtain ⟨h1, h2⟩ := onMarketDataKey_effects_bar rv c t p v isNew k (m k) e he
      rw [h1]
      exact hm k h2
    · exact hstep.2 e he

theorem flushLoop_ohlc (rv : ResetValues P) (c : BarCollector P) (endOfDay : Bool) :
    ∀ (ks : List TimeFrame) (m : TimeFrame → StandardBar P), BarsOHLC m →
      BarsOHLC (c.flushLoop rv endOfDay ks m).2 ∧
      ∀ e ∈ (c.flushLoop rv endOfDay ks m).1, OHLC e.bar := by
  intro ks
  induction ks with
  | nil =>
    intro m hm
    exact ⟨hm, fun e he => by cases he⟩
  | cons k ks ih =>
    intro m hm
    simp only [BarCollector.flushLoop]
    split
    · have hbar : (c.saveEmitReset rv k (m k)).2.isEmpty = false →
          OHLC (c.saveEmitReset rv k (m k)).2 := by
        rw [saveEmitReset_snd]
        cases hE : (m k).isEmpty
        · intro he
          simp only [if_true] at he
          rw [reset_isEmpty] at he
          cases he
        · intro he
          simp only [Bool.true_eq_false, if_false] at he
          rw [hE] at he
          cases he
      have hstep := ih (Function.update m k (c.saveEmitReset rv k (m k)).2)
        (barsOHLC_update m k _ hm hbar)
      refine ⟨hstep.1, fun e he => ?_⟩
      rcases List.mem_append.mp he with he | he
      · obtain ⟨h1, h2⟩ := saveEmitReset_effects_bar rv c k (m k) e he
        rw [h1]
        exact hm k h2
      · exact hstep.2 e he
    · exact ih m hm

theorem call_ohlc (rv : ResetValues P) (dateToUtcTimestamp2 : String → Int)
    (c : BarCollector P) (x : Call P) (hc : BarsOHLC c.barMap) :
    BarsOHLC (c.call rv dateToUtcTimestamp2 x).1.barMap ∧
    ∀ e ∈ (c.call rv dateToUtcTimestamp2 x).2, OHLC e.bar := by
  cases x with
  | onMarketData t p v =>
    exact onMarketDataLoop_ohlc rv c t p v _ c.keys c.barMap hc
  | setTradingDay day =>
    refine ⟨?_, fun e he => by cases he⟩
    simp only [BarCollector.call, BarCollector.setTradingDay]
    split
    · exact hc
    · exact hc
  | flush endOfDay =>
    exact flushLoop_ohlc rv c endOfDay c.keys c.barMap hc

theorem run_ohlc (rv : ResetValues P) (dateToUtcTimestamp2 : String → Int) :
    ∀ (calls : List (Call P)) (c : BarCollector P), BarsOHLC c.barMap →
      BarsOHLC (c.run rv dateToUtcTimestamp2 calls).1.barMap ∧
      ∀ e ∈ (c.run rv dateToUtcTimestamp2 calls).2, OHLC e.bar := by
  intro calls
  induction calls with
  | nil =>
    intro c hc
    exact ⟨hc, fun e he => by cases he⟩
  | cons x xs ih =>
    intro c hc
    simp only [BarCollector.run]
    have h1 := call_ohlc rv dateToUtcTimestamp2 c x hc
    have h2 := ih _ h1.1
    refine ⟨h2.1, fun e he => ?_⟩
    rcases List.mem_append.mp he with he | he
    · exact h1.2 e he
    · exact h2.2 e he

/-- C5: starting from a fresh collector, after every finite sequence of
`onMarketData`, `setTradingDay` and `flush` calls, every non-empty bar held by the
collector and every bar handed to a sink satisfies `low ≤ open ≤ high` and
`low ≤ close ≤ high`. -/
theorem ohlc_invariant (rv : ResetValues P) (dateToUtcTimestamp2 : String → Int)
    (instr : String) (keys : List TimeFrame) (save stock : Bool) (tdb : Int)
    (calls : List (Call P)) :
    (∀ tf,
      (((BarCollector.init rv instr keys save stock tdb).run rv dateToUtcTimestamp2
          calls).1.barMap tf).isEmpty = false →
      OHLC (((BarCollector.init rv instr keys save stock tdb).run rv dateToUtcTimestamp2
          calls).1.barMap tf)) ∧
    (∀ e ∈ ((BarCollector.init rv instr keys save stock tdb).run rv dateToUtcTimestamp2
          calls).2, OHLC e.bar) := by
  apply run_ohlc
  intro tf he
  simp only [BarCollector.init] at he
  rw [reset_isEmpty] at he
  cases he

end Invariant

/-! ## The bucket calculator -/

section Buckets

variable {P : Type}

theorem getTimeFrameBegin_day (c : BarCollector P) (t : Int) :
    c.getTimeFrameBegin t TimeFrame.DAY = c.tradingDayBase := by
  simp [BarCollector.getTimeFrameBegin]

theorem getTimeFrameBegin_session_hour2 (c : BarCollector P) (hs : c.isStockLike = true)
    (t : Int) :
    c.getTimeFrameBegin t TimeFrame.HOUR2
      = t.tdiv 86400 * 24 * 3600
        + if (t.tdiv 3600).tmod 24 < 12 then 34200 else 46800 := by
  simp [BarCollector.getTimeFrameBegin, hs, HOUR_UNIT, MIN_UNIT]

theorem getTimeFrameBegin_session_hour1 (c : BarCollector P) (hs : c.isStockLike = true)
    (t : Int) :
    c.getTimeFrameBegin t TimeFrame.HOUR1
      = if (t.tdiv 3600).tmod 24 < 12 then (t - 1800).tdiv 3600 * 3600 + 1800
        else t.tdiv 3600 * 3600 := by
  simp [BarCollector.getTimeFrameBegin, hs, HOUR_UNIT, MIN_UNIT, g_time_table]

theorem getTimeFrameBegin_generic (c : BarCollector P) (t : Int) (tf : TimeFrame)
    (hday : tf ≠ TimeFrame.DAY)
    (h : c.isStockLike = false ∨ (tf ≠ TimeFrame.HOUR1 ∧ tf ≠ TimeFrame.HOUR2)) :
    c.getTimeFrameBegin t tf = t.tdiv (g_time_table tf) * g_time_table tf := by
  rcases h with h | ⟨h1, h2⟩
  · simp [BarCollector.getTimeFrameBegin, hday, h]
  · simp [BarCollector.getTimeFrameBegin, hday, h1, h2]

theorem g_time_table_pos (tf : TimeFrame) : 0 < g_time_table tf := by
  cases tf <;> simp [g_time_table, MIN_UNIT, HOUR_UNIT]

/-- Truncating division by a positive number, in terms of floor division. -/
theorem tdiv_eq_ite (a d : Int) (hd : 0 < d) :
    a.tdiv d = if 0 ≤ a then a / d else -((-a) / d) := by
  split
  · next h => exact Int.tdiv_eq_ediv h (le_of_lt hd)
  · next h =>
    have hneg : 0 ≤ -a := by omega
    have := Int.tdiv_eq_ediv hneg (le_of_lt hd)
    rw [Int.neg_tdiv] at this
    omega

/-- C8: in session mode the 2-hour timeframe has two buckets per day: for `t ≥ 0`
the bucket start is 09:30 of the day of `t` when the hour of day is below 12 and
13:00 of that day otherwise; so ticks at 09:31 and 13:05 of day `d` fall into the
distinct buckets starting 09:30 and 13:00 of day `d`, which are not the starts
`⌊t / 7200⌋ · 7200` of the plain 2-hour modulus. -/
theorem session_two_hour_buckets (c : BarCollector P) (hs : c.isStockLike = true) :
    (∀ t : Int, 0 ≤ t →
      c.getTimeFrameBegin t TimeFrame.HOUR2
        = if (t / 3600) % 24 < 12 then t / 86400 * 86400 + 34200
          else t / 86400 * 86400 + 46800) ∧
    (∀ d : Int, 0 ≤ d →
      c.getTimeFrameBegin (d * 86400 + (9 * 3600 + 31 * 60)) TimeFrame.HOUR2
        = d * 86400 + (9 * 3600 + 30 * 60) ∧
      c.getTimeFrameBegin (d * 86400 + (13 * 3600 + 5 * 60)) TimeFrame.HOUR2
        = d * 86400 + 13 * 3600 ∧
      d * 86400 + (9 * 3600 + 30 * 60) ≠ d * 86400 + 13 * 3600 ∧
      d * 86400 + (9 * 3600 + 30 * 60)
        ≠ (d * 86400 + (9 * 3600 + 31 * 60)) / 7200 * 7200 ∧
      d * 86400 + 13 * 3600 ≠ (d * 86400 + (13 * 3600 + 5 * 60)) / 7200 * 7200) := by
  have key : ∀ t : Int, 0 ≤ t →
      c.getTimeFrameBegin t TimeFrame.HOUR2
        = if (t / 3600) % 24 < 12 then t / 86400 * 86400 + 34200
          else t / 86400 * 86400 + 46800 := by
    intro t ht
    have h1 : t.tdiv 3600 = t / 3600 := Int.tdiv_eq_ediv ht (by decide)
    have h2 : (t / 3600).tmod 24 = (t / 3600) % 24 :=
      Int.tmod_eq_emod (Int.ediv_nonneg ht (by decide)) (by decide)
    have h3 : t.tdiv 86400 = t / 86400 := Int.tdiv_eq_ediv ht (by decide)
    rw [getTimeFrameBegin_session_hour2 c hs, h1, h2, h3]
    split <;> omega
  refine ⟨key, fun d hd => ⟨?_, ?_, by omega, by omega, by omega⟩⟩
  · rw [key _ (by omega)]
    have hh : (d * 86400 + (9 * 3600 + 31 * 60)) / 3600 % 24 = 9 := by omega
    rw [if_pos (by omega)]
    omega
  · rw [key _ (by omega)]
    have hh : (d * 86400 + (13 * 3600 + 5 * 60)) / 3600 % 24 = 13 := by omega
    rw [if_neg (by omega)]
    omega

/-- In session mode, before noon and from 00:30 of the first day on, the 1-hour
bucket start is the half-hour anchored `⌊(t − 1800) / 3600⌋ · 3600 + 1800`. -/
theorem session_one_hour_morning (c : BarCollector P) (hs : c.isStockLike = true) (t : Int)
    (ht : 1800 ≤ t) (hh : (t / 3600) % 24 < 12) :
    c.getTimeFrameBegin t TimeFrame.HOUR1 = (t - 1800) / 3600 * 3600 + 1800 := by
  have h1 : t.tdiv 3600 = t / 3600 := Int.tdiv_eq_ediv (by omega) (by decide)
  have h2 : (t / 3600).tmod 24 = (t / 3600) % 24 :=
    Int.tmod_eq_emod (Int.ediv_nonneg (by omega) (by decide)) (by decide)
  have h3 : (t - 1800).tdiv 3600 = (t - 1800) / 3600 :=
    Int.tdiv_eq_ediv (by omega) (by decide)
  rw [getTimeFrameBegin_session_hour1 c hs, h1, h2, h3, if_pos hh]

/-- C9 (the code at the failing input): in session mode the 1-hour bucket start
computed for `t = 0` (hour of day 0) is 1800, which lies after the tick, whereas
`⌊(0 − 1800) / 3600⌋ · 3600 + 1800 = −1800`. -/
theorem session_one_hour_at_epoch :
    (0 : Int) / 3600 % 24 < 12 ∧
    ({ sampleFresh with isStockLike := true } : BarCollector Px).getTimeFrameBegin 0
      TimeFrame.HOUR1 = 1800 ∧
    ((0 : Int) - 1800) / 3600 * 3600 + 1800 = -1800 := by
  decide

/-- C10: the generic rule. For `t ≥ 0` and a timeframe other than the day class,
in a continuous market, or in session mode for a timeframe other than 1-hour and
2-hour, or for the 1-hour timeframe from noon on, the bucket start is
`⌊t / d⌋ · d` with `d` the catalog duration: a multiple of `d` with
`bucketStart ≤ t < bucketStart + d`. -/
theorem generic_bucket_rule (c : BarCollector P) (t : Int) (tf : TimeFrame) (ht : 0 ≤ t)
    (hday : tf ≠ TimeFrame.DAY)
    (hcase : c.isStockLike = false ∨ (tf ≠ TimeFrame.HOUR1 ∧ tf ≠ TimeFrame.HOUR2) ∨
      (tf = TimeFrame.HOUR1 ∧ 12 ≤ (t / 3600) % 24)) :
    c.getTimeFrameBegin t tf = t / g_time_table tf * g_time_table tf ∧
    g_time_table tf ∣ c.getTimeFrameBegin t tf ∧
    c.getTimeFrameBegin t tf ≤ t ∧
    t < c.getTimeFrameBegin t tf + g_time_table tf := by
  have hd := g_time_table_pos tf
  have h0 : t.tdiv (g_time_table tf) = t / g_time_table tf :=
    Int.tdiv_eq_ediv ht (le_of_lt hd)
  have h1 : t.tdiv 3600 = t / 3600 := Int.tdiv_eq_ediv ht (by decide)
  have h2 : (t / 3600).tmod 24 = (t / 3600) % 24 :=
    Int.tmod_eq_emod (Int.ediv_nonneg ht (by decide)) (by decide)
  have key : c.getTimeFrameBegin t tf = t / g_time_table tf * g_time_table tf := by
    rcases hcase with h | h | ⟨ha, hb⟩
    · rw [getTimeFrameBegin_generic c t tf hday (Or.inl h), h0]
    · rw [getTimeFrameBegin_generic c t tf hday (Or.inr h), h0]
    · cases hs : c.isStockLike
      · rw [getTimeFrameBegin_generic c t tf hday (Or.inl hs), h0]
      · subst ha
        have hb' : ¬ (t / 3600 % 24 < 12) := by omega
        rw [getTimeFrameBegin_session_hour1 c hs, h1, h2, if_neg hb']
        rfl
  rw [key]
  refine ⟨rfl, Dvd.intro_left _ rfl, Int.ediv_mul_le t (ne_of_gt hd), ?_⟩
  have := Int.lt_ediv_add_one_mul_self t hd
  linarith

/-- Witness for C10: the 1-minute timeframe of the continuous-market collector
`sampleFresh` at `t = 61`. -/
theorem generic_bucket_rule_witness :
    ((0 : Int) ≤ 61 ∧ TimeFrame.MIN1 ≠ TimeFrame.DAY ∧ sampleFresh.isStockLike = false) ∧
    sampleFresh.getTimeFrameBegin 61 TimeFrame.MIN1 = 60 :=
  ⟨⟨by decide, by decide, rfl⟩,
    (generic_bucket_rule sampleFresh 61 TimeFrame.MIN1 (by decide) (by decide)
      (Or.inl rfl)).1⟩

/-- Witness for C8: the session-mode collector at 09:31 of day 0. -/
theorem session_two_hour_buckets_witness :
    ({ sampleFresh with isStockLike := true } : BarCollector Px).isStockLike = true ∧
    ({ sampleFresh with isStockLike := true } : BarCollector Px).getTimeFrameBegin 34260
      TimeFrame.HOUR2 = 34200 :=
  ⟨rfl, (session_two_hour_buckets ({ sampleFresh with isStockLike := true } : BarCollector Px)
    rfl).1 34260 (by decide)⟩

end Buckets

/-! ## Monotonicity of the bucket calculator -/

section Mono

variable {P : Type}

theorem tdiv_mono (d : Int) (hd : 0 < d) (a b : Int) (h : a ≤ b) : a.tdiv d ≤ b.tdiv d := by
  rw [tdiv_eq_ite a d hd, tdiv_eq_ite b d hd]
  split_ifs with h1 h2 h2
  · exact Int.ediv_le_ediv hd h
  · omega
  · have := Int.ediv_nonneg (show 0 ≤ -a by omega) (le_of_lt hd)
    have := Int.ediv_nonneg h2 (le_of_lt hd)
    omega
  · have := Int.ediv_le_ediv hd (show -b ≤ -a by omega)
    omega

theorem tdiv_mul_mono (d : Int) (hd : 0 < d) (a b : Int) (h : a ≤ b) :
    a.tdiv d * d ≤ b.tdiv d * d :=
  Int.mul_le_mul_of_nonneg_right (tdiv_mono d hd a b h) (le_of_lt hd)

theorem hour_eq (t : Int) :
    (t.tdiv 3600).tmod 24
      = if 0 ≤ t then (t / 3600) % 24 else -(((-t) / 3600) % 24) := by
  rw [Int.tmod_def, tdiv_eq_ite t 3600 (by decide)]
  split_ifs with h
  · rw [tdiv_eq_ite _ 24 (by decide), if_pos (Int.ediv_nonneg h (by decide))]
    omega
  · rw [tdiv_eq_ite _ 24 (by decide)]
    split_ifs with h2
    · omega
    · omega

theorem getTimeFrameBegin_mono (c : BarCollector P) (tf : TimeFrame) (t1 t2 : Int)
    (h : t1 ≤ t2) : c.getTimeFrameBegin t1 tf ≤ c.getTimeFrameBegin t2 tf := by
  by_cases hday : tf = TimeFrame.DAY
  · subst hday
    rw [getTimeFrameBegin_day, getTimeFrameBegin_day]
  cases hs : c.isStockLike
  · rw [getTimeFrameBegin_generic c t1 tf hday (Or.inl hs),
      getTimeFrameBegin_generic c t2 tf hday (Or.inl hs)]
    exact tdiv_mul_mono _ (g_time_table_pos tf) _ _ h
  by_cases h1 : tf = TimeFrame.HOUR1
  · subst h1
    rw [getTimeFrameBegin_session_hour1 c hs, getTimeFrameBegin_session_hour1 c hs,
      hour_eq, hour_eq, tdiv_eq_ite (t1 - 1800) 3600 (by decide),
      tdiv_eq_ite (t2 - 1800) 3600 (by decide), tdiv_eq_ite t1 3600 (by decide),
      tdiv_eq_ite t2 3600 (by decide)]
    split_ifs <;> omega
  by_cases h2 : tf = TimeFrame.HOUR2
  · subst h2
    rw [getTimeFrameBegin_session_hour2 c hs, getTimeFrameBegin_session_hour2 c hs,
      hour_eq, hour_eq, tdiv_eq_ite t1 86400 (by decide), tdiv_eq_ite t2 86400 (by decide)]
    split_ifs <;> omega
  rw [getTimeFrameBegin_generic c t1 tf hday (Or.inr ⟨h1, h2⟩),
    getTimeFrameBegin_generic c t2 tf hday (Or.inr ⟨h1, h2⟩)]
  exact tdiv_mul_mono _ (g_time_table_pos tf) _ _ h

end Mono
/-! ## Runs over tick sequences -/

section TickLists

variable {P : Type}

theorem isEmpty_eq_true_iff (bar : StandardBar P) :
    bar.isEmpty = true ↔ bar.tick_volume = 0 := by
  simp [StandardBar.isEmpty]

theorem isEmpty_eq_false_iff (bar : StandardBar P) :
    bar.isEmpty = false ↔ bar.tick_volume ≠ 0 := by
  simp [StandardBar.isEmpty]

theorem genuineVolume_eq_zero (bkt : Tick P → Int) (b : Int) :
    ∀ (ticks : List (Tick P)) (prev : Int), (∀ tk ∈ ticks, bkt tk ≠ b) →
      genuineVolume bkt b prev ticks = 0 := by
  intro ticks
  induction ticks with
  | nil => intro _ _; rfl
  | cons tk rest ih =>
    intro prev h
    have h1 : bkt tk ≠ b := h tk (List.mem_cons_self _ _)
    have h2 := ih tk.volume (fun tk' htk' => h tk' (List.mem_cons_of_mem _ htk'))
    simp [genuineVolume, h1, h2]

theorem pairwise_bucket_of_sorted (c : BarCollector P) (tf : TimeFrame)
    (ticks : List (Tick P)) (h : ticks.Pairwise (fun a b => a.time ≤ b.time)) :
    ticks.Pairwise (fun a b => c.getTimeFrameBegin a.time tf ≤ c.getTimeFrameBegin b.time tf) :=
  h.imp (fun hab => getTimeFrameBegin_mono c tf _ _ hab)

theorem mem_genuineBuckets (bkt : Tick P → Int) (x : Int) :
    ∀ (ticks : List (Tick P)) (prev : Int), x ∈ genuineBuckets bkt prev ticks →
      ∃ tk ∈ ticks, x = bkt tk := by
  intro ticks
  induction ticks with
  | nil => intro _ h; cases h
  | cons tk rest ih =>
    intro prev h
    simp only [genuineBuckets, List.mem_append] at h
    rcases h with h | h
    · by_cases hv : tk.volume = prev
      · simp [hv] at h
      · simp [hv] at h
        exact ⟨tk, List.mem_cons_self _ _, h⟩
    · obtain ⟨tk', h1, h2⟩ := ih tk.volume h
      exact ⟨tk', List.mem_cons_of_mem _ h1, h2⟩

end TickLists

section TickRuns

variable {P : Type} [LinearOrder P] [BoundedOrder P]

theorem onMarketData_keys (rv : ResetValues P) (c : BarCollector P) (t : Int) (p : P)
    (v : Int) : (c.onMarketData rv t p v).state.keys = c.keys := rfl

theorem onMarketData_lastVolume (rv : ResetValues P) (c : BarCollector P) (t : Int) (p : P)
    (v : Int) : (c.onMarketData rv t p v).state.lastVolume = v := rfl

theorem onMarketData_getTimeFrameBegin (rv : ResetValues P) (c : BarCollector P) (t : Int)
    (p : P) (v : Int) (t' : Int) (tf : TimeFrame) :
    (c.onMarketData rv t p v).state.getTimeFrameBegin t' tf = c.getTimeFrameBegin t' tf := rfl

theorem run_cons_tick (rv : ResetValues P) (d2t : String → Int) (c : BarCollector P)
    (tk : Tick P) (rest : List (Tick P)) :
    c.run rv d2t ((tk :: rest).map Tick.toCall)
      = (((c.onMarketData rv tk.time tk.lastPrice tk.volume).state.run rv d2t
            (rest.map Tick.toCall)).1,
          (c.onMarketData rv tk.time tk.lastPrice tk.volume).effects
            ++ ((c.onMarketData rv tk.time tk.lastPrice tk.volume).state.run rv d2t
              (rest.map Tick.toCall)).2) := rfl

/-- The five ways one tick can act on the bar of a configured timeframe. -/
theorem tick_cases (rv : ResetValues P) (c : BarCollector P) (t : Int) (p : P) (v : Int)
    (tf : TimeFrame) (hk : c.keys.Nodup) (htf : tf ∈ c.keys) :
    (v = c.lastVolume ∧
      ((c.barMap tf).isEmpty = true ∨ c.getTimeFrameBegin t tf = (c.barMap tf).time) ∧
      (c.onMarketData rv t p v).state.barMap tf = c.barMap tf ∧
      emittedFor tf (c.onMarketData rv t p v).effects = []) ∨
    (v = c.lastVolume ∧ (c.barMap tf).isEmpty = false ∧
      c.getTimeFrameBegin t tf ≠ (c.barMap tf).time ∧
      (c.onMarketData rv t p v).state.barMap tf = StandardBar.reset rv ∧
      emittedFor tf (c.onMarketData rv t p v).effects = [c.barMap tf]) ∨
    (v ≠ c.lastVolume ∧ (c.barMap tf).isEmpty = true ∧
      ((c.onMarketData rv t p v).state.barMap tf).time = c.getTimeFrameBegin t tf ∧
      ((c.onMarketData rv t p v).state.barMap tf).volume
        = (c.barMap tf).volume + (v - c.lastVolume) ∧
      ((c.onMarketData rv t p v).state.barMap tf).tick_volume = 1 ∧
      emittedFor tf (c.onMarketData rv t p v).effects = []) ∨
    (v ≠ c.lastVolume ∧ (c.barMap tf).isEmpty = false ∧
      c.getTimeFrameBegin t tf = (c.barMap tf).time ∧
      ((c.onMarketData rv t p v).state.barMap tf).time = (c.barMap tf).time ∧
      ((c.onMarketData rv t p v).state.barMap tf).volume
        = (c.barMap tf).volume + (v - c.lastVolume) ∧
      ((c.onMarketData rv t p v).state.barMap tf).tick_volume
        = (c.barMap tf).tick_volume + 1 ∧
      emittedFor tf (c.onMarketData rv t p v).effects = []) ∨
    (v ≠ c.lastVolume ∧ (c.barMap tf).isEmpty = false ∧
      c.getTimeFrameBegin t tf ≠ (c.barMap tf).time ∧
      ((c.onMarketData rv t p v).state.barMap tf).time = c.getTimeFrameBegin t tf ∧
      ((c.onMarketData rv t p v).state.barMap tf).volume = v - c.lastVolume ∧
      ((c.onMarketData rv t p v).state.barMap tf).tick_volume = 1 ∧
      emittedFor tf (c.onMarketData rv t p v).effects = [c.barMap tf]) := by
  rw [onMarketData_barMap rv c t p v tf hk htf, onMarketData_emittedFor rv c t p v tf hk htf]
  by_cases hv : v = c.lastVolume
  · cases hE : (c.barMap tf).isEmpty
    · by_cases hb : c.getTimeFrameBegin t tf = (c.barMap tf).time
      · left
        refine ⟨hv, Or.inr hb, ?_, ?_⟩
        · simp [hv, rolled_of_eq rv _ _ hb]
        · simp [hb]
      · right; left
        refine ⟨hv, rfl, hb, ?_, ?_⟩
        · simp [hv, rolled_of_ne rv _ _ hb hE]
        · simp [hb]
    · left
      refine ⟨hv, Or.inl rfl, ?_, ?_⟩
      · simp [hv, rolled_of_isEmpty rv _ _ hE]
      · simp
  · cases hE : (c.barMap tf).isEmpty
    · by_cases hb : c.getTimeFrameBegin t tf = (c.barMap tf).time
      · right; right; right; left
        rw [rolled_of_eq rv _ _ hb]
        refine ⟨hv, rfl, hb, ?_, ?_, ?_, ?_⟩ <;>
          simp [hv, updated, hE, hb]
      · right; right; right; right
        refine ⟨hv, rfl, hb, ?_, ?_, ?_, ?_⟩ <;>
          simp [hv, rolled_of_ne rv _ _ hb hE, updated_reset, hb]
    · right; right; left
      have ht : (c.barMap tf).tick_volume = 0 := (isEmpty_eq_true_iff _).mp hE
      refine ⟨hv, rfl, ?_, ?_, ?_, ?_⟩ <;>
        simp [hv, rolled_of_isEmpty rv _ _ hE, updated, hE, ht]

theorem emitted_volume_aux (rv : ResetValues P) (d2t : String → Int) (tf : TimeFrame)
    (bkt : Tick P → Int) :
    ∀ (ticks : List (Tick P)) (c : BarCollector P), c.keys.Nodup → tf ∈ c.keys →
      (∀ tk : Tick P, c.getTimeFrameBegin tk.time tf = bkt tk) →
      ticks.Pairwise (fun a b => bkt a ≤ bkt b) →
      0 ≤ (c.barMap tf).tick_volume →
      ((c.barMap tf).tick_volume = 0 → (c.barMap tf).volume = 0) →
      ((c.barMap tf).tick_volume ≠ 0 → ∀ tk ∈ ticks, (c.barMap tf).time ≤ bkt tk) →
      ∀ e ∈ emittedFor tf (c.run rv d2t (ticks.map Tick.toCall)).2,
        (((c.barMap tf).tick_volume ≠ 0 ∧ e.time = (c.barMap tf).time) ∨
          ∃ tk ∈ ticks, e.time = bkt tk) ∧
        e.volume
          = (if (c.barMap tf).tick_volume ≠ 0 ∧ e.time = (c.barMap tf).time
              then (c.barMap tf).volume else 0)
            + genuineVolume bkt e.time c.lastVolume ticks := by
  intro ticks
  induction ticks with
  | nil =>
    intro c _ _ _ _ _ _ _ e he
    simp [BarCollector.run, emittedFor] at he
  | cons tk rest ih =>
    intro c hk htf hbkt hpw htv hvol htime e he
    rw [run_cons_tick] at he
    simp only [emittedFor_append, List.mem_append] at he
    have hle : ∀ tk' ∈ rest, bkt tk ≤ bkt tk' := (List.pairwise_cons.mp hpw).1
    have hpw' : rest.Pairwise (fun a b => bkt a ≤ bkt b) := (List.pairwise_cons.mp hpw).2
    have hIH := ih (c.onMarketData rv tk.time tk.lastPrice tk.volume).state hk htf hbkt hpw'
    rw [onMarketData_lastVolume] at hIH
    have hcases := tick_cases rv c tk.time tk.lastPrice tk.volume tf hk htf
    rw [hbkt tk] at hcases
    simp only [isEmpty_eq_true_iff, isEmpty_eq_false_iff] at hcases
    have htime0 : (c.barMap tf).tick_volume ≠ 0 → (c.barMap tf).time ≤ bkt tk :=
      fun h => htime h tk (List.mem_cons_self _ _)
    have htime1 : (c.barMap tf).tick_volume ≠ 0 → ∀ tk' ∈ rest, (c.barMap tf).time ≤ bkt tk' :=
      fun h tk' htk' => htime h tk' (List.mem_cons_of_mem _ htk')
    simp only [genuineVolume]
    generalize (c.onMarketData rv tk.time tk.lastPrice tk.volume).state.barMap tf = B' at *
    generalize emittedFor tf (c.onMarketData rv tk.time tk.lastPrice tk.volume).effects
      = E0 at *
    generalize emittedFor tf ((c.onMarketData rv tk.time tk.lastPrice tk.volume).state.run
      rv d2t (rest.map Tick.toCall)).2 = E at *
    generalize c.barMap tf = B at *
    generalize c.lastVolume = lv at *
    have mem_up : (∃ tk' ∈ rest, e.time = bkt tk') → ∃ tk' ∈ tk :: rest, e.time = bkt tk' :=
      fun ⟨tk', h1, h2⟩ => ⟨tk', List.mem_cons_of_mem _ h1, h2⟩
    rcases hcases with
      ⟨hv, hcond, hB', hem⟩ | ⟨hv, hE, hne, hB', hem⟩ | ⟨hv, hE, hT, hV, hTV, hem⟩ |
      ⟨hv, hE, heq, hT, hV, hTV, hem⟩ | ⟨hv, hE, hne, hT, hV, hTV, hem⟩
    · subst hB' hem
      simp only [List.not_mem_nil, false_or] at he
      obtain ⟨h1, h2⟩ := hIH htv hvol htime1 e he
      refine ⟨h1.imp id mem_up, ?_⟩
      rw [h2]
      simp [hv]
    · subst hB' hem
      have hlt : B.time < bkt tk := lt_of_le_of_ne (htime0 hE) (Ne.symm hne)
      rcases he with he | he
      · obtain rfl : e = B := by simpa using he
        refine ⟨Or.inl ⟨hE, rfl⟩, ?_⟩
        rw [genuineVolume_eq_zero bkt e.time rest tk.volume
          (fun tk' htk' => ne_of_gt (lt_of_lt_of_le hlt (hle tk' htk')))]
        simp [hE, hv]
      · obtain ⟨h1, h2⟩ := hIH (by simp [StandardBar.reset]) (by simp [StandardBar.reset])
          (by simp [StandardBar.reset]) e he
        have h3 : ∃ tk' ∈ rest, e.time = bkt tk' := by
          rcases h1 with ⟨h, _⟩ | h
          · simp [StandardBar.reset] at h
          · exact h
        have hgt : B.time < e.time := by
          obtain ⟨tk', htk', h⟩ := h3
          rw [h]
          exact lt_of_lt_of_le hlt (hle tk' htk')
        refine ⟨Or.inr (mem_up h3), ?_⟩
        rw [h2]
        simp [StandardBar.reset, hv, ne_of_gt hgt]
    · subst hem
      simp only [List.not_mem_nil, false_or] at he
      have hB'ne : B'.tick_volume ≠ 0 := by omega
      obtain ⟨h1, h2⟩ := hIH (by omega) (fun h => absurd h hB'ne)
        (fun _ tk' htk' => by rw [hT]; exact hle tk' htk') e he
      refine ⟨Or.inr ?_, ?_⟩
      · rcases h1 with ⟨_, h⟩ | h
        · exact ⟨tk, List.mem_cons_self _ _, by rw [h, hT]⟩
        · exact mem_up h
      · rw [h2, hV, hvol hE, hT]
        by_cases hc : e.time = bkt tk
        · simp [hc, hB'ne, hE, hv]
        · have hc' : ¬ bkt tk = e.time := fun h => hc h.symm
          simp [hc, hc', hE]
    · subst hem
      simp only [List.not_mem_nil, false_or] at he
      have hB'ne : B'.tick_volume ≠ 0 := by omega
      obtain ⟨h1, h2⟩ := hIH (by omega) (fun h => absurd h hB'ne)
        (fun _ tk' htk' => by rw [hT]; exact htime1 hE tk' htk') e he
      refine ⟨?_, ?_⟩
      · rcases h1 with ⟨_, h⟩ | h
        · exact Or.inl ⟨hE, by rw [h, hT]⟩
        · exact Or.inr (mem_up h)
      · rw [h2, hV, hT, heq]
        by_cases hc : e.time = B.time
        · simp [hc, hB'ne, hE, hv]
          omega
        · have hc' : ¬ B.time = e.time := fun h => hc h.symm
          simp [hc, hc']
    · subst hem
      have hlt : B.time < bkt tk := lt_of_le_of_ne (htime0 hE) (Ne.symm hne)
      have hB'ne : B'.tick_volume ≠ 0 := by omega
      rcases he with he | he
      · obtain rfl : e = B := by simpa using he
        refine ⟨Or.inl ⟨hE, rfl⟩, ?_⟩
        rw [genuineVolume_eq_zero bkt e.time rest tk.volume
          (fun tk' htk' => ne_of_gt (lt_of_lt_of_le hlt (hle tk' htk')))]
        simp [hE, hne]
      · obtain ⟨h1, h2⟩ := hIH (by omega) (fun h => absurd h hB'ne)
          (fun _ tk' htk' => by rw [hT]; exact hle tk' htk') e he
        have h3 : ∃ tk' ∈ tk :: rest, e.time = bkt tk' := by
          rcases h1 with ⟨_, h⟩ | h
          · exact ⟨tk, List.mem_cons_self _ _, by rw [h, hT]⟩
          · exact mem_up h
        have hgt : B.time < e.time := by
          obtain ⟨tk', htk', h⟩ := h3
          rw [h]
          rcases List.mem_cons.mp htk' with h' | h'
          · rw [h']
            exact hlt
          · exact lt_of_lt_of_le hlt (hle tk' h')
        refine ⟨Or.inr h3, ?_⟩
        rw [h2, hV, hT]
        by_cases hc : e.time = bkt tk
        · simp [hc, hB'ne, hv, ne_of_gt hlt]
        · have hc' : ¬ bkt tk = e.time := fun h => hc h.symm
          simp [hc, hc', ne_of_gt hgt]

theorem init_barMap (rv : ResetValues P) (instr : String) (keys : List TimeFrame)
    (save stock : Bool) (tdb : Int) (tf : TimeFrame) :
    (BarCollector.init rv instr keys save stock tdb).barMap tf = StandardBar.reset rv := rfl

/-- C6: for a fresh collector and ticks with non-decreasing timestamps, every bar
emitted for a configured timeframe has as volume the sum of
`volume_i − volume_{i-1}` over the genuine-trade ticks of the sequence whose
computed bucket start is the bar's bucket start (`volume_0 = 0`). -/
theorem emitted_bar_volume (rv : ResetValues P) (d2t : String → Int) (instr : String)
    (keys : List TimeFrame) (save stock : Bool) (tdb : Int) (tf : TimeFrame)
    (ticks : List (Tick P)) (hk : keys.Nodup) (htf : tf ∈ keys)
    (hsorted : ticks.Pairwise (fun a b => a.time ≤ b.time)) :
    ∀ bar ∈ emittedFor tf
        ((BarCollector.init rv instr keys save stock tdb).run rv d2t
          (ticks.map Tick.toCall)).2,
      bar.volume
        = genuineVolume
            (fun tk => (BarCollector.init rv instr keys save stock tdb).getTimeFrameBegin
              tk.time tf)
            bar.time 0 ticks := by
  intro bar hbar
  have h := emitted_volume_aux rv d2t tf
    (fun tk => (BarCollector.init rv instr keys save stock tdb).getTimeFrameBegin tk.time tf)
    ticks (BarCollector.init rv instr keys save stock tdb) hk htf (fun _ => rfl)
    (pairwise_bucket_of_sorted _ tf ticks hsorted)
    (by simp [init_barMap, StandardBar.reset]) (by simp [init_barMap, StandardBar.reset])
    (by simp [init_barMap, StandardBar.reset]) bar hbar
  have h2 := h.2
  simp only [init_barMap] at h2
  rw [h2]
  simp [StandardBar.reset, BarCollector.init]

theorem emitted_count_aux (rv : ResetValues P) (d2t : String → Int) (tf : TimeFrame)
    (bkt : Tick P → Int) :
    ∀ (ticks : List (Tick P)) (c : BarCollector P), c.keys.Nodup → tf ∈ c.keys →
      (∀ tk : Tick P, c.getTimeFrameBegin tk.time tf = bkt tk) →
      ticks.Pairwise (fun a b => bkt a ≤ bkt b) →
      0 ≤ (c.barMap tf).tick_volume →
      ((c.barMap tf).tick_volume ≠ 0 → ∀ tk ∈ ticks, (c.barMap tf).time ≤ bkt tk) →
      (emittedFor tf (c.run rv d2t (ticks.map Tick.toCall)).2).length
          + (if ((c.run rv d2t (ticks.map Tick.toCall)).1.barMap tf).tick_volume ≠ 0
              then 1 else 0)
        = ((if (c.barMap tf).tick_volume ≠ 0 then [(c.barMap tf).time] else [])
            ++ genuineBuckets bkt c.lastVolume ticks).dedup.length := by
  intro ticks
  induction ticks with
  | nil =>
    intro c _ _ _ _ _ _
    by_cases h : (c.barMap tf).tick_volume = 0 <;>
      simp [BarCollector.run, emittedFor, genuineBuckets, h]
  | cons tk rest ih =>
    intro c hk htf hbkt hpw htv htime
    rw [run_cons_tick]
    simp only [emittedFor_append, List.length_append]
    have hle : ∀ tk' ∈ rest, bkt tk ≤ bkt tk' := (List.pairwise_cons.mp hpw).1
    have hpw' : rest.Pairwise (fun a b => bkt a ≤ bkt b) := (List.pairwise_cons.mp hpw).2
    have hIH := ih (c.onMarketData rv tk.time tk.lastPrice tk.volume).state hk htf hbkt hpw'
    rw [onMarketData_lastVolume] at hIH
    have hcases := tick_cases rv c tk.time tk.lastPrice tk.volume tf hk htf
    rw [hbkt tk] at hcases
    simp only [isEmpty_eq_true_iff, isEmpty_eq_false_iff] at hcases
    have htime0 : (c.barMap tf).tick_volume ≠ 0 → (c.barMap tf).time ≤ bkt tk :=
      fun h => htime h tk (List.mem_cons_self _ _)
    have htime1 : (c.barMap tf).tick_volume ≠ 0 → ∀ tk' ∈ rest, (c.barMap tf).time ≤ bkt tk' :=
      fun h tk' htk' => htime h tk' (List.mem_cons_of_mem _ htk')
    simp only [genuineBuckets]
    generalize (if (((c.onMarketData rv tk.time tk.lastPrice tk.volume).state.run rv d2t
      (rest.map Tick.toCall)).1.barMap tf).tick_volume ≠ 0 then 1 else 0) = o at *
    generalize (emittedFor tf ((c.onMarketData rv tk.time tk.lastPrice tk.volume).state.run
      rv d2t (rest.map Tick.toCall)).2).length = n at *
    generalize (c.onMarketData rv tk.time tk.lastPrice tk.volume).state.barMap tf = B' at *
    generalize emittedFor tf (c.onMarketData rv tk.time tk.lastPrice tk.volume).effects
      = E0 at *
    generalize c.barMap tf = B at *
    generalize c.lastVolume = lv at *
    have not_mem_rest : B.tick_volume ≠ 0 → bkt tk ≠ B.time →
        B.time ∉ genuineBuckets bkt tk.volume rest := by
      intro hE hne hmem
      obtain ⟨tk', h1, h2⟩ := mem_genuineBuckets bkt _ rest _ hmem
      have := hle tk' h1
      have := htime0 hE
      omega
    rcases hcases with
      ⟨hv, hcond, hB', hem⟩ | ⟨hv, hE, hne, hB', hem⟩ | ⟨hv, hE, hT, hV, hTV, hem⟩ |
      ⟨hv, hE, heq, hT, hV, hTV, hem⟩ | ⟨hv, hE, hne, hT, hV, hTV, hem⟩
    · subst hB' hem
      have := hIH htv htime1
      simp [hv, this]
    · subst hB' hem hv
      have := hIH (by simp [StandardBar.reset]) (by simp [StandardBar.reset])
      simp only [StandardBar.reset, ne_eq, not_true_eq_false, if_false, List.nil_append] at this
      simp only [ne_eq, not_true_eq_false, if_false, hE, not_false_eq_true, if_true,
        List.nil_append, List.singleton_append, List.length_singleton]
      rw [List.dedup_cons_of_not_mem (not_mem_rest hE hne), List.length_cons]
      omega
    · subst hem
      have hB'ne : B'.tick_volume ≠ 0 := by omega
      have := hIH (by omega) (fun _ tk' htk' => by rw [hT]; exact hle tk' htk')
      simp only [hB'ne, ne_eq, not_false_eq_true, if_true, hT] at this
      simp [hv, hE, this]
    · subst hem
      have hB'ne : B'.tick_volume ≠ 0 := by omega
      have := hIH (by omega) (fun _ tk' htk' => by rw [hT]; exact htime1 hE tk' htk')
      simp only [hB'ne, ne_eq, not_false_eq_true, if_true, hT] at this
      simp only [hv, ne_eq, not_false_eq_true, if_true, hE, heq, List.singleton_append,
        List.length_nil, Nat.zero_add]
      rw [List.dedup_cons_of_mem (List.mem_cons_self _ _)]
      exact this
    · subst hem
      have hB'ne : B'.tick_volume ≠ 0 := by omega
      have := hIH (by omega) (fun _ tk' htk' => by rw [hT]; exact hle tk' htk')
      simp only [hB'ne, ne_eq, not_false_eq_true, if_true, hT] at this
      simp only [hv, ne_eq, not_false_eq_true, if_true, hE, List.singleton_append,
        List.length_singleton]
      have hnm : B.time ∉ bkt tk :: genuineBuckets bkt tk.volume rest := by
        intro hm
        rcases List.mem_cons.mp hm with h | h
        · exact hne h.symm
        · exact not_mem_rest hE hne h
      rw [List.dedup_cons_of_not_mem hnm, List.length_cons]
      simp only [List.singleton_append] at this
      omega

/-- Counterexample to C7 as stated: `sampleFresh` fed `sampleQuoteTicks`, whose
timestamps 0, 61, 121 increase strictly and visit the three 1-minute buckets
0, 60, 120; the middle tick repeats the cumulative volume, so bucket 60 never
opens a bar and only one bar is emitted, not `3 − 1 = 2`. -/
theorem quote_only_bucket_emits_nothing :
    sampleQuoteTicks.Pairwise (fun a b => a.time < b.time) ∧
    TimeFrame.MIN1 ∈ sampleFresh.keys ∧
    (sampleQuoteTicks.map
      (fun tk => sampleFresh.getTimeFrameBegin tk.time TimeFrame.MIN1)).dedup.length = 3 ∧
    (emittedFor TimeFrame.MIN1
      (sampleFresh.run sampleReset (fun _ => 0) (sampleQuoteTicks.map Tick.toCall)).2).length
      = 1 := by
  decide

/-- C7 (amended): for a fresh collector, a configured timeframe and ticks with
strictly increasing timestamps, the number of bars emitted for the timeframe
equals the number of distinct bucket starts computed for the genuine-trade ticks
(`volume_i ≠ volume_{i-1}`, `volume_0 = 0`), minus one when the bar of the
timeframe is still open (non-empty) after the last tick. -/
theorem emitted_bar_count (rv : ResetValues P) (d2t : String → Int) (instr : String)
    (keys : List TimeFrame) (save stock : Bool) (tdb : Int) (tf : TimeFrame)
    (ticks : List (Tick P)) (hk : keys.Nodup) (htf : tf ∈ keys)
    (hinc : ticks.Pairwise (fun a b => a.time < b.time)) :
    (emittedFor tf
        ((BarCollector.init rv instr keys save stock tdb).run rv d2t
          (ticks.map Tick.toCall)).2).length
      = (genuineBuckets
            (fun tk => (BarCollector.init rv instr keys save stock tdb).getTimeFrameBegin
              tk.time tf) 0 ticks).dedup.length
        - (if (((BarCollector.init rv instr keys save stock tdb).run rv d2t
              (ticks.map Tick.toCall)).1.barMap tf).isEmpty = false then 1 else 0) ∧
    (if (((BarCollector.init rv instr keys save stock tdb).run rv d2t
          (ticks.map Tick.toCall)).1.barMap tf).isEmpty = false then 1 else 0)
      ≤ (genuineBuckets
            (fun tk => (BarCollector.init rv instr keys save stock tdb).getTimeFrameBegin
              tk.time tf) 0 ticks).dedup.length := by
  have h := emitted_count_aux rv d2t tf
    (fun tk => (BarCollector.init rv instr keys save stock tdb).getTimeFrameBegin tk.time tf)
    ticks (BarCollector.init rv instr keys save stock tdb) hk htf (fun _ => rfl)
    (pairwise_bucket_of_sorted _ tf ticks (hinc.imp (fun hab => le_of_lt hab)))
    (by simp [init_barMap, StandardBar.reset]) (by simp [init_barMap, StandardBar.reset])
  simp only [init_barMap, StandardBar.reset, ne_eq, not_true_eq_false, if_false,
    List.nil_append] at h
  simp only [isEmpty_eq_false_iff, ne_eq]
  have h0 : (BarCollector.init rv instr keys save stock tdb).lastVolume = 0 := rfl
  rw [h0] at h
  constructor <;> omega

/-- Witness for C6: `sampleFresh` fed the three ticks of the end-to-end example. -/
theorem emitted_bar_volume_witness :
    ([TimeFrame.MIN1].Nodup ∧ TimeFrame.MIN1 ∈ [TimeFrame.MIN1] ∧
      sampleTicks.Pairwise (fun a b => a.time ≤ b.time)) ∧
    ∀ bar ∈ emittedFor TimeFrame.MIN1
        (sampleFresh.run sampleReset (fun _ => 0) (sampleTicks.map Tick.toCall)).2,
      bar.volume
        = genuineVolume (fun tk => sampleFresh.getTimeFrameBegin tk.time TimeFrame.MIN1)
            bar.time 0 sampleTicks :=
  ⟨⟨by decide, by decide, by decide⟩,
    emitted_bar_volume sampleReset (fun _ => 0) "rb1910" [TimeFrame.MIN1] false false 0
      TimeFrame.MIN1 sampleTicks (by decide) (by decide) (by decide)⟩

/-- Witness for C7 (amended): `sampleFresh` fed the three ticks of the end-to-end
example emits one bar; two buckets saw a genuine trade and the second is still
open. -/
theorem emitted_bar_count_witness :
    ([TimeFrame.MIN1].Nodup ∧ TimeFrame.MIN1 ∈ [TimeFrame.MIN1] ∧
      sampleTicks.Pairwise (fun a b => a.time < b.time)) ∧
    (emittedFor TimeFrame.MIN1
        (sampleFresh.run sampleReset (fun _ => 0) (sampleTicks.map Tick.toCall)).2).length
      = (genuineBuckets (fun tk => sampleFresh.getTimeFrameBegin tk.time TimeFrame.MIN1)
            0 sampleTicks).dedup.length
        - (if ((sampleFresh.run sampleReset (fun _ => 0)
              (sampleTicks.map Tick.toCall)).1.barMap TimeFrame.MIN1).isEmpty = false
            then 1 else 0) :=
  ⟨⟨by decide, by decide, by decide⟩,
    (emitted_bar_count sampleReset (fun _ => 0) "rb1910" [TimeFrame.MIN1] false false 0
      TimeFrame.MIN1 sampleTicks (by decide) (by decide) (by decide)).1⟩

end TickRuns

/-! ## Day-class bucket, trading day, return value -/

section DayBucket

variable {P : Type}

/-- C11: for the day-class timeframe the computed bucket start is
`tradingDayBase`, for every timestamp and in both session modes. -/
theorem day_bucket_is_trading_day_base (c : BarCollector P) (t : Int) :
    c.getTimeFrameBegin t TimeFrame.DAY = c.tradingDayBase ∧
    ∀ (mode : Bool) (t' : Int),
      ({ c with isStockLike := mode }).getTimeFrameBegin t' TimeFrame.DAY
        = c.tradingDayBase := by
  simp [BarCollector.getTimeFrameBegin]

end DayBucket

section Frame

variable {P : Type} [LinearOrder P] [BoundedOrder P]

/-- C12: `setTradingDay` performs no effect and leaves every bar (and the key
list and session mode) as it is; when the timestamp of the day differs from
`tradingDayBase`, afterwards `tradingDayBase` is the new timestamp and
`lastVolume` is 0; when it is equal, both are unchanged. -/
theorem setTradingDay_effect (rv : ResetValues P) (d2t : String → Int) (c : BarCollector P)
    (day : String) :
    (c.call rv d2t (Call.setTradingDay day)).2 = [] ∧
    (c.call rv d2t (Call.setTradingDay day)).1 = c.setTradingDay d2t day ∧
    (c.setTradingDay d2t day).barMap = c.barMap ∧
    (c.setTradingDay d2t day).keys = c.keys ∧
    (c.setTradingDay d2t day).isStockLike = c.isStockLike ∧
    (c.setTradingDay d2t day).tradingDayBase
      = (if d2t day ≠ c.tradingDayBase then d2t day else c.tradingDayBase) ∧
    (c.setTradingDay d2t day).lastVolume
      = (if d2t day ≠ c.tradingDayBase then 0 else c.lastVolume) := by
  by_cases h : c.tradingDayBase = d2t day
  · simp [BarCollector.call, BarCollector.setTradingDay, h]
  · have h' : ¬ d2t day = c.tradingDayBase := fun e => h e.symm
    simp [BarCollector.call, BarCollector.setTradingDay, h, h']

/-- C15: `onMarketData` returns true exactly when the tick's cumulative volume
differs from `lastVolume` before the call; afterwards `lastVolume` is the tick's
cumulative volume and `tradingDayBase` is unchanged. -/
theorem onMarketData_return_and_lastVolume (rv : ResetValues P) (c : BarCollector P)
    (t : Int) (p : P) (v : Int) :
    ((c.onMarketData rv t p v).ret = true ↔ v ≠ c.lastVolume) ∧
    (c.onMarketData rv t p v).state.lastVolume = v ∧
    (c.onMarketData rv t p v).state.tradingDayBase = c.tradingDayBase := by
  simp [BarCollector.onMarketData]

end Frame

/-! ## Flush -/

section Flush

variable {P : Type} [LinearOrder P] [BoundedOrder P]

theorem flushLoop_snd_of_not_mem (rv : ResetValues P) (c : BarCollector P) (e : Bool)
    (tf : TimeFrame) :
    ∀ (ks : List TimeFrame) (m : TimeFrame → StandardBar P), tf ∉ ks →
      (c.flushLoop rv e ks m).2 tf = m tf := by
  intro ks
  induction ks with
  | nil => intro m _; rfl
  | cons k ks ih =>
    intro m h
    have hk : tf ≠ k := fun e => h (e ▸ List.mem_cons_self _ _)
    have hks : tf ∉ ks := fun e => h (List.mem_cons_of_mem _ e)
    simp only [BarCollector.flushLoop]
    split
    · rw [ih _ hks, Function.update_noteq hk]
    · exact ih _ hks

theorem flushLoop_snd_of_mem (rv : ResetValues P) (c : BarCollector P) (e : Bool)
    (tf : TimeFrame) :
    ∀ (ks : List TimeFrame) (m : TimeFrame → StandardBar P), ks.Nodup → tf ∈ ks →
      (c.flushLoop rv e ks m).2 tf
        = if tf ≠ TimeFrame.DAY ∨ e = true then (c.saveEmitReset rv tf (m tf)).2
          else m tf := by
  intro ks
  induction ks with
  | nil => intro m _ h; cases h
  | cons k ks ih =>
    intro m hnd h
    have hk_notin : k ∉ ks := (List.nodup_cons.mp hnd).1
    have hnd' : ks.Nodup := (List.nodup_cons.mp hnd).2
    simp only [BarCollector.flushLoop]
    by_cases hk : tf = k
    · subst hk
      split
      · rw [flushLoop_snd_of_not_mem rv c e tf ks _ hk_notin, Function.update_same]
      · rw [flushLoop_snd_of_not_mem rv c e tf ks _ hk_notin]
    · have hmem : tf ∈ ks := by
        rcases List.mem_cons.mp h with h | h
        · exact absurd h hk
        · exact h
      split
      · rw [ih _ hnd' hmem, Function.update_noteq hk]
      · exact ih _ hnd' hmem

theorem flushLoop_fst_of_not_mem (rv : ResetValues P) (c : BarCollector P) (e : Bool)
    (tf : TimeFrame) :
    ∀ (ks : List TimeFrame) (m : TimeFrame → StandardBar P), tf ∉ ks →
      emittedFor tf (c.flushLoop rv e ks m).1 = [] := by
  intro ks
  induction ks with
  | nil => intro m _; rfl
  | cons k ks ih =>
    intro m h
    have hk : ¬ k = tf := fun e => h (e ▸ List.mem_cons_self _ _)
    have hks : tf ∉ ks := fun e => h (List.mem_cons_of_mem _ e)
    simp only [BarCollector.flushLoop]
    split
    · rw [emittedFor_append, ih _ hks, emittedFor_saveEmitReset]
      simp [hk]
    · exact ih _ hks

theorem flushLoop_fst_of_mem (rv : ResetValues P) (c : BarCollector P) (e : Bool)
    (tf : TimeFrame) :
    ∀ (ks : List TimeFrame) (m : TimeFrame → StandardBar P), ks.Nodup → tf ∈ ks →
      emittedFor tf (c.flushLoop rv e ks m).1
        = if (tf ≠ TimeFrame.DAY ∨ e = true) ∧ (m tf).isEmpty = false then [m tf]
          else [] := by
  intro ks
  induction ks with
  | nil => intro m _ h; cases h
  | cons k ks ih =>
    intro m hnd h
    have hk_notin : k ∉ ks := (List.nodup_cons.mp hnd).1
    have hnd' : ks.Nodup := (List.nodup_cons.mp hnd).2
    simp only [BarCollector.flushLoop]
    by_cases hk : tf = k
    · subst hk
      split
      · next hc =>
        rw [emittedFor_append, flushLoop_fst_of_not_mem rv c e tf ks _ hk_notin,
          List.append_nil, emittedFor_saveEmitReset]
        simp [hc]
      · next hc =>
        rw [flushLoop_fst_of_not_mem rv c e tf ks _ hk_notin]
        simp [hc]
    · have hmem : tf ∈ ks := by
        rcases List.mem_cons.mp h with h | h
        · exact absurd h hk
        · exact h
      have hk' : ¬ k = tf := fun e => hk e.symm
      split
      · rw [emittedFor_append, ih _ hnd' hmem, Function.update_noteq hk,
          emittedFor_saveEmitReset]
        simp [hk']
      · exact ih _ hnd' hmem

/-- What `flush` does to the bar of a configured timeframe. -/
theorem flush_barMap (rv : ResetValues P) (c : BarCollector P) (e : Bool) (tf : TimeFrame)
    (hk : c.keys.Nodup) (htf : tf ∈ c.keys) :
    (c.flush rv e).state.barMap tf
      = if (tf ≠ TimeFrame.DAY ∨ e = true) ∧ (c.barMap tf).isEmpty = false
          then StandardBar.reset rv else c.barMap tf := by
  simp only [BarCollector.flush]
  rw [flushLoop_snd_of_mem rv c e tf c.keys c.barMap hk htf, saveEmitReset_snd]
  by_cases h1 : tf ≠ TimeFrame.DAY ∨ e = true <;>
    cases h2 : (c.barMap tf).isEmpty <;> simp [h1, h2]

/-- What `flush` hands to the event sink for a configured timeframe. -/
theorem flush_emittedFor (rv : ResetValues P) (c : BarCollector P) (e : Bool)
    (tf : TimeFrame) (hk : c.keys.Nodup) (htf : tf ∈ c.keys) :
    emittedFor tf (c.flush rv e).effects
      = if (tf ≠ TimeFrame.DAY ∨ e = true) ∧ (c.barMap tf).isEmpty = false
          then [c.barMap tf] else [] := by
  simp only [BarCollector.flush]
  exact flushLoop_fst_of_mem rv c e tf c.keys c.barMap hk htf

/-- C13: `flush(false)` hands to the event sink exactly the non-empty bars of the
configured timeframes other than the day class, each once with its current
value, leaves those bars empty and leaves the day-class bar, `lastVolume` and
`tradingDayBase` unchanged; `flush(true)` does so for every configured
timeframe, the day class included, and leaves every configured bar empty. -/
theorem flush_contract (rv : ResetValues P) (c : BarCollector P) (hk : c.keys.Nodup) :
    ((∀ tf, emittedFor tf (c.flush rv false).effects
        = if tf ∈ c.keys ∧ tf ≠ TimeFrame.DAY ∧ (c.barMap tf).isEmpty = false
            then [c.barMap tf] else []) ∧
      (∀ tf ∈ c.keys, tf ≠ TimeFrame.DAY →
        ((c.flush rv false).state.barMap tf).isEmpty = true) ∧
      (c.flush rv false).state.barMap TimeFrame.DAY = c.barMap TimeFrame.DAY ∧
      (c.flush rv false).state.lastVolume = c.lastVolume ∧
      (c.flush rv false).state.tradingDayBase = c.tradingDayBase) ∧
    ((∀ tf, emittedFor tf (c.flush rv true).effects
        = if tf ∈ c.keys ∧ (c.barMap tf).isEmpty = false then [c.barMap tf] else []) ∧
      (∀ tf ∈ c.keys, ((c.flush rv true).state.barMap tf).isEmpty = true) ∧
      (c.flush rv true).state.lastVolume = c.lastVolume ∧
      (c.flush rv true).state.tradingDayBase = c.tradingDayBase) := by
  have hem : ∀ (e : Bool) (tf : TimeFrame), emittedFor tf (c.flush rv e).effects
      = if tf ∈ c.keys ∧ (tf ≠ TimeFrame.DAY ∨ e = true) ∧ (c.barMap tf).isEmpty = false
          then [c.barMap tf] else [] := by
    intro e tf
    by_cases htf : tf ∈ c.keys
    · rw [flush_emittedFor rv c e tf hk htf]
      simp [htf]
    · simp only [BarCollector.flush]
      rw [flushLoop_fst_of_not_mem rv c e tf c.keys c.barMap htf]
      simp [htf]
  have hempty : ∀ (e : Bool) (tf : TimeFrame), tf ∈ c.keys → (tf ≠ TimeFrame.DAY ∨ e = true) →
      ((c.flush rv e).state.barMap tf).isEmpty = true := by
    intro e tf htf hc
    rw [flush_barMap rv c e tf hk htf]
    cases hE : (c.barMap tf).isEmpty
    · simp [hc, reset_isEmpty]
    · simp [hE]
  refine ⟨⟨fun tf => ?_, fun tf htf hd => hempty false tf htf (Or.inl hd), ?_, rfl, rfl⟩,
    ⟨fun tf => ?_, fun tf htf => hempty true tf htf (Or.inr rfl), rfl, rfl⟩⟩
  · rw [hem]
    simp
  · by_cases hd : TimeFrame.DAY ∈ c.keys
    · rw [flush_barMap rv c false TimeFrame.DAY hk hd]
      simp
    · simp only [BarCollector.flush]
      exact flushLoop_snd_of_not_mem rv c false TimeFrame.DAY c.keys c.barMap hd
  · rw [hem]
    simp

/-- Witness for C13: `flush(false)` on `sampleTwoBars`, whose 1-minute and day
bars are open, emits the 1-minute bar and keeps the day bar. -/
theorem flush_contract_witness :
    sampleTwoBars.keys.Nodup ∧
    emittedFor TimeFrame.MIN1 (sampleTwoBars.flush sampleReset false).effects
      = [sampleTwoBars.barMap TimeFrame.MIN1] ∧
    emittedFor TimeFrame.DAY (sampleTwoBars.flush sampleReset false).effects = [] ∧
    (sampleTwoBars.flush sampleReset false).state.barMap TimeFrame.DAY
      = sampleTwoBars.barMap TimeFrame.DAY ∧
    emittedFor TimeFrame.DAY (sampleTwoBars.flush sampleReset true).effects
      = [sampleTwoBars.barMap TimeFrame.DAY] :=
  have h := flush_contract sampleReset sampleTwoBars (by decide)
  ⟨by decide, (h.1.1 TimeFrame.MIN1).trans (if_pos (by decide)),
    (h.1.1 TimeFrame.DAY).trans (if_neg (by decide)), h.1.2.2.1,
    (h.2.1 TimeFrame.DAY).trans (if_pos (by decide))⟩

end Flush

/-! ## Non-trade ticks, the post-tick invariant, monotone buckets -/

section PostTick

variable {P : Type} [LinearOrder P] [BoundedOrder P]

/-- C16: a tick with `volume = lastVolume`, at a configured timeframe: when the
bar is non-empty and its bucket start differs from the tick's, the bar is
emitted exactly once with its value before the tick and is empty afterwards (the
new bucket is not opened); otherwise nothing is emitted and the bar is
unchanged. -/
theorem non_trade_tick_rollover (rv : ResetValues P) (c : BarCollector P) (t : Int) (p : P)
    (v : Int) (tf : TimeFrame) (hk : c.keys.Nodup) (htf : tf ∈ c.keys)
    (hv : v = c.lastVolume) :
    (((c.barMap tf).isEmpty = false ∧ (c.barMap tf).time ≠ c.getTimeFrameBegin t tf) →
      emittedFor tf (c.onMarketData rv t p v).effects = [c.barMap tf] ∧
      ((c.onMarketData rv t p v).state.barMap tf).isEmpty = true) ∧
    (¬ ((c.barMap tf).isEmpty = false ∧ (c.barMap tf).time ≠ c.getTimeFrameBegin t tf) →
      emittedFor tf (c.onMarketData rv t p v).effects = [] ∧
      (c.onMarketData rv t p v).state.barMap tf = c.barMap tf) := by
  rw [onMarketData_barMap rv c t p v tf hk htf, onMarketData_emittedFor rv c t p v tf hk htf]
  constructor
  · rintro ⟨h1, h2⟩
    have h2' : c.getTimeFrameBegin t tf ≠ (c.barMap tf).time := fun e => h2 e.symm
    rw [rolled_of_ne rv _ _ h2' h1]
    simp [hv, h1, h2', reset_isEmpty]
  · intro h
    cases hE : (c.barMap tf).isEmpty
    · have hb : c.getTimeFrameBegin t tf = (c.barMap tf).time := by
        by_contra hne
        exact h ⟨hE, fun e => hne e.symm⟩
      rw [rolled_of_eq rv _ _ hb]
      simp [hv, hb]
    · rw [rolled_of_isEmpty rv _ _ hE]
      simp [hv]

/-- Witness for C16: the quote-only tick (61, 10.0, 1) closes the bucket-0 bar of
`sampleOpen`. -/
theorem non_trade_tick_rollover_witness :
    (sampleOpen.keys.Nodup ∧ TimeFrame.MIN1 ∈ sampleOpen.keys ∧
      (1 : Int) = sampleOpen.lastVolume ∧
      (sampleOpen.barMap TimeFrame.MIN1).isEmpty = false ∧
      (sampleOpen.barMap TimeFrame.MIN1).time
        ≠ sampleOpen.getTimeFrameBegin 61 TimeFrame.MIN1) ∧
    emittedFor TimeFrame.MIN1 (sampleOpen.onMarketData sampleReset 61 (px 10.0) 1).effects
      = [sampleOpen.barMap TimeFrame.MIN1] ∧
    ((sampleOpen.onMarketData sampleReset 61 (px 10.0) 1).state.barMap
      TimeFrame.MIN1).isEmpty = true :=
  ⟨⟨by decide, by decide, by decide, by decide, by decide⟩,
    (non_trade_tick_rollover sampleReset sampleOpen 61 (px 10.0) 1 TimeFrame.MIN1
      (by decide) (by decide) (by decide)).1 ⟨by decide, by decide⟩⟩

theorem onMarketDataKey_post (rv : ResetValues P) (c : BarCollector P) (t : Int) (p : P)
    (v : Int) (isNew : Bool) (key : TimeFrame) (bar : StandardBar P) :
    (c.onMarketDataKey rv t p v isNew key bar).2.isEmpty = true ∨
    (c.onMarketDataKey rv t p v isNew key bar).2.time = c.getTimeFrameBegin t key := by
  rw [onMarketDataKey_snd]
  have hr : (rolled rv (c.getTimeFrameBegin t key) bar).isEmpty = true ∨
      (rolled rv (c.getTimeFrameBegin t key) bar).time = c.getTimeFrameBegin t key := by
    cases hE : bar.isEmpty
    · by_cases hb : c.getTimeFrameBegin t key = bar.time
      · rw [rolled_of_eq rv _ _ hb]
        exact Or.inr hb.symm
      · rw [rolled_of_ne rv _ _ hb hE]
        exact Or.inl (reset_isEmpty rv)
    · rw [rolled_of_isEmpty rv _ _ hE]
      exact Or.inl hE
  cases isNew
  · simpa using hr
  · right
    rcases hr with h | h
    · simp [updated, h]
    · cases hE : (rolled rv (c.getTimeFrameBegin t key) bar).isEmpty <;>
        simp [updated, hE, h]

theorem onMarketDataLoop_post (rv : ResetValues P) (c : BarCollector P) (t : Int) (p : P)
    (v : Int) (isNew : Bool) (tf : TimeFrame) :
    ∀ (ks : List TimeFrame) (m : TimeFrame → StandardBar P), tf ∈ ks →
      ((c.onMarketDataLoop rv t p v isNew ks m).2 tf).isEmpty = true ∨
      ((c.onMarketDataLoop rv t p v isNew ks m).2 tf).time = c.getTimeFrameBegin t tf := by
  intro ks
  induction ks with
  | nil => intro m h; cases h
  | cons k ks ih =>
    intro m h
    simp only [BarCollector.onMarketDataLoop]
    by_cases hmem : tf ∈ ks
    · exact ih _ hmem
    · have hk : tf = k := by
        rcases List.mem_cons.mp h with h | h
        · exact h
        · exact absurd h hmem
      subst hk
      rw [onMarketDataLoop_snd_of_not_mem rv c t p v isNew tf ks _ hmem,
        Function.update_same]
      exact onMarketDataKey_post rv c t p v isNew tf (m tf)

/-- C19: after `onMarketData` with timestamp `t`, from any state whatsoever, the
bar of every configured timeframe is empty or has as bucket start the one
computed for `t` (with the `tradingDayBase` and session mode of the state, which
the call does not change). -/
theorem post_tick_bar_in_bucket (rv : ResetValues P) (c : BarCollector P) (t : Int) (p : P)
    (v : Int) (tf : TimeFrame) (htf : tf ∈ c.keys) :
    (((c.onMarketData rv t p v).state.barMap tf).isEmpty = true ∨
      ((c.onMarketData rv t p v).state.barMap tf).time
        = (c.onMarketData rv t p v).state.getTimeFrameBegin t tf) ∧
    (c.onMarketData rv t p v).state.getTimeFrameBegin t tf = c.getTimeFrameBegin t tf :=
  ⟨onMarketDataLoop_post rv c t p v _ tf c.keys c.barMap htf, rfl⟩

/-- Witness for C19: the tick (61, 9.0, 3) on `sampleOpen` leaves the 1-minute bar
in bucket 60. -/
theorem post_tick_bar_in_bucket_witness :
    TimeFrame.MIN1 ∈ sampleOpen.keys ∧
    (((sampleOpen.onMarketData sampleReset 61 (px 9.0) 3).state.barMap
        TimeFrame.MIN1).isEmpty = true ∨
      ((sampleOpen.onMarketData sampleReset 61 (px 9.0) 3).state.barMap TimeFrame.MIN1).time
        = (sampleOpen.onMarketData sampleReset 61 (px 9.0) 3).state.getTimeFrameBegin 61
            TimeFrame.MIN1) :=
  ⟨by decide,
    (post_tick_bar_in_bucket sampleReset sampleOpen 61 (px 9.0) 3 TimeFrame.MIN1
      (by decide)).1⟩

end PostTick

section MonoClaim

variable {P : Type}

/-- C18: the bucket calculator is monotone in time: for every timeframe, trading
day base and session mode and all timestamps `t1 ≤ t2` (in particular
`0 ≤ t1 ≤ t2`) the bucket start of `t1` is at most the bucket start of `t2`;
hence a bucket that a tick at `t2` has left is not the bucket of any later
tick. -/
theorem bucket_start_monotone (c : BarCollector P) (tf : TimeFrame) (t1 t2 : Int)
    (h : t1 ≤ t2) :
    c.getTimeFrameBegin t1 tf ≤ c.getTimeFrameBegin t2 tf ∧
    ∀ t3 : Int, t2 ≤ t3 → c.getTimeFrameBegin t1 tf ≠ c.getTimeFrameBegin t2 tf →
      c.getTimeFrameBegin t3 tf ≠ c.getTimeFrameBegin t1 tf := by
  have h12 := getTimeFrameBegin_mono c tf t1 t2 h
  refine ⟨h12, fun t3 h3 hne => ?_⟩
  have h23 := getTimeFrameBegin_mono c tf t2 t3 h3
  omega

/-- Witness for C18: the session-mode 1-hour rule across its noon switch,
11:59:59 and 12:00:00 of day 0. -/
theorem bucket_start_monotone_witness :
    (43199 : Int) ≤ 43200 ∧
    ({ sampleFresh with isStockLike := true } : BarCollector Px).getTimeFrameBegin 43199
        TimeFrame.HOUR1
      ≤ ({ sampleFresh with isStockLike := true } : BarCollector Px).getTimeFrameBegin 43200
        TimeFrame.HOUR1 :=
  ⟨by decide,
    (bucket_start_monotone ({ sampleFresh with isStockLike := true } : BarCollector Px)
      TimeFrame.HOUR1 43199 43200 (by decide)).1⟩

end MonoClaim

/-! ## No empty bar is ever output -/

section OutputMaps

variable {P : Type}

theorem tick_volume_update (m : TimeFrame → StandardBar P) (key : TimeFrame)
    (bar : StandardBar P) (hm : ∀ tf, 0 ≤ (m tf).tick_volume) (hb : 0 ≤ bar.tick_volume) :
    ∀ tf, 0 ≤ (Function.update m key bar tf).tick_volume := by
  intro tf
  by_cases htf : tf = key
  · subst htf
    rw [Function.update_same]
    exact hb
  · rw [Function.update_noteq htf]
    exact hm tf

end OutputMaps

section Output

variable {P : Type} [LinearOrder P] [BoundedOrder P]

/-- Every bar in the effect list has received a tick, and every bar handed to the
persistence sink is also handed to the event sink. -/
theorem saveEmitReset_output (rv : ResetValues P) (c : BarCollector P) (key : TimeFrame)
    (bar : StandardBar P) (hb : 0 ≤ bar.tick_volume) :
    0 ≤ (c.saveEmitReset rv key bar).2.tick_volume ∧
    (∀ e ∈ (c.saveEmitReset rv key bar).1, 1 ≤ e.bar.tick_volume) ∧
    (∀ i k b, Effect.saveBarToDb i k b ∈ (c.saveEmitReset rv key bar).1 →
      Effect.collectedBar i k b ∈ (c.saveEmitReset rv key bar).1) := by
  refine ⟨?_, ?_, ?_⟩
  · rw [saveEmitReset_snd]
    split
    · simp [StandardBar.reset]
    · exact hb
  · intro e he
    obtain ⟨h1, h2⟩ := saveEmitReset_effects_bar rv c key bar e he
    have h3 : bar.tick_volume ≠ 0 := by simpa [StandardBar.isEmpty] using h2
    rw [h1]
    omega
  · intro i k b h
    unfold BarCollector.saveEmitReset at h ⊢
    cases hE : bar.isEmpty
    · cases hS : c.saveBarsToDB <;> simp [hE, hS] at h ⊢
      exact h
    · simp [hE] at h

theorem onMarketDataKey_fst_eq (rv : ResetValues P) (c : BarCollector P) (t : Int) (p : P)
    (v : Int) (isNew : Bool) (key : TimeFrame) (bar : StandardBar P) :
    (c.onMarketDataKey rv t p v isNew key bar).1
      = if c.getTimeFrameBegin t key ≠ bar.time then (c.saveEmitReset rv key bar).1
        else [] := by
  unfold BarCollector.onMarketDataKey
  by_cases hb : c.getTimeFrameBegin t key = bar.time <;> cases isNew <;> simp [hb]

theorem onMarketDataKey_output (rv : ResetValues P) (c : BarCollector P) (t : Int) (p : P)
    (v : Int) (isNew : Bool) (key : TimeFrame) (bar : StandardBar P)
    (hb : 0 ≤ bar.tick_volume) :
    0 ≤ (c.onMarketDataKey rv t p v isNew key bar).2.tick_volume ∧
    (∀ e ∈ (c.onMarketDataKey rv t p v isNew key bar).1, 1 ≤ e.bar.tick_volume) ∧
    (∀ i k b, Effect.saveBarToDb i k b ∈ (c.onMarketDataKey rv t p v isNew key bar).1 →
      Effect.collectedBar i k b ∈ (c.onMarketDataKey rv t p v isNew key bar).1) := by
  have hs := saveEmitReset_output rv c key bar hb
  refine ⟨?_, ?_, ?_⟩
  · rw [onMarketDataKey_snd]
    have hr : 0 ≤ (rolled rv (c.getTimeFrameBegin t key) bar).tick_volume := by
      unfold rolled
      split
      · simp [StandardBar.reset]
      · exact hb
    cases isNew
    · simpa using hr
    · simp only [if_true, updated]
      omega
  · rw [onMarketDataKey_fst_eq]
    split
    · exact hs.2.1
    · intro e he
      cases he
  · rw [onMarketDataKey_fst_eq]
    split
    · exact hs.2.2
    · intro i k b h
      cases h

theorem onMarketDataLoop_output (rv : ResetValues P) (c : BarCollector P) (t : Int) (p : P)
    (v : Int) (isNew : Bool) :
    ∀ (ks : List TimeFrame) (m : TimeFrame → StandardBar P),
      (∀ tf, 0 ≤ (m tf).tick_volume) →
      (∀ tf, 0 ≤ ((c.onMarketDataLoop rv t p v isNew ks m).2 tf).tick_volume) ∧
      (∀ e ∈ (c.onMarketDataLoop rv t p v isNew ks m).1, 1 ≤ e.bar.tick_volume) ∧
      (∀ i k b, Effect.saveBarToDb i k b ∈ (c.onMarketDataLoop rv t p v isNew ks m).1 →
        Effect.collectedBar i k b ∈ (c.onMarketDataLoop rv t p v isNew ks m).1) := by
  intro ks
  induction ks with
  | nil =>
    intro m hm
    exact ⟨hm, (fun e he => by cases he), (fun i k b h => by cases h)⟩
  | cons key ks ih =>
    intro m hm
    simp only [BarCollector.onMarketDataLoop]
    have h1 := onMarketDataKey_output rv c t p v isNew key (m key) (hm key)
    have h2 := ih _ (tick_volume_update m key _ hm h1.1)
    refine ⟨h2.1, fun e he => ?_, fun i k b h => ?_⟩
    · rcases List.mem_append.mp he with he | he
      · exact h1.2.1 e he
      · exact h2.2.1 e he
    · rcases List.mem_append.mp h with h | h
      · exact List.mem_append_left _ (h1.2.2 i k b h)
      · exact List.mem_append_right _ (h2.2.2 i k b h)

theorem flushLoop_output (rv : ResetValues P) (c : BarCollector P) (endOfDay : Bool) :
    ∀ (ks : List TimeFrame) (m : TimeFrame → StandardBar P),
      (∀ tf, 0 ≤ (m tf).tick_volume) →
      (∀ tf, 0 ≤ ((c.flushLoop rv endOfDay ks m).2 tf).tick_volume) ∧
      (∀ e ∈ (c.flushLoop rv endOfDay ks m).1, 1 ≤ e.bar.tick_volume) ∧
      (∀ i k b, Effect.saveBarToDb i k b ∈ (c.flushLoop rv endOfDay ks m).1 →
        Effect.collectedBar i k b ∈ (c.flushLoop rv endOfDay ks m).1) := by
  intro ks
  induction ks with
  | nil =>
    intro m hm
    exact ⟨hm, (fun e he => by cases he), (fun i k b h => by cases h)⟩
  | cons key ks ih =>
    intro m hm
    simp only [BarCollector.flushLoop]
    split
    · have h1 := saveEmitReset_output rv c key (m key) (hm key)
      have h2 := ih _ (tick_volume_update m key _ hm h1.1)
      refine ⟨h2.1, fun e he => ?_, fun i k b h => ?_⟩
      · rcases List.mem_append.mp he with he | he
        · exact h1.2.1 e he
        · exact h2.2.1 e he
      · rcases List.mem_append.mp h with h | h
        · exact List.mem_append_left _ (h1.2.2 i k b h)
        · exact List.mem_append_right _ (h2.2.2 i k b h)
    · exact ih m hm

theorem call_output (rv : ResetValues P) (d2t : String → Int) (c : BarCollector P)
    (x : Call P) (hc : ∀ tf, 0 ≤ (c.barMap tf).tick_volume) :
    (∀ tf, 0 ≤ ((c.call rv d2t x).1.barMap tf).tick_volume) ∧
    (∀ e ∈ (c.call rv d2t x).2, 1 ≤ e.bar.tick_volume) ∧
    (∀ i k b, Effect.saveBarToDb i k b ∈ (c.call rv d2t x).2 →
      Effect.collectedBar i k b ∈ (c.call rv d2t x).2) := by
  cases x with
  | onMarketData t p v => exact onMarketDataLoop_output rv c t p v _ c.keys c.barMap hc
  | setTradingDay day =>
    refine ⟨?_, (fun e he => by cases he), (fun i k b h => by cases h)⟩
    simp only [BarCollector.call, BarCollector.setTradingDay]
    split
    · exact hc
    · exact hc
  | flush endOfDay => exact flushLoop_output rv c endOfDay c.keys c.barMap hc

theorem run_output (rv : ResetValues P) (d2t : String → Int) :
    ∀ (calls : List (Call P)) (c : BarCollector P),
      (∀ tf, 0 ≤ (c.barMap tf).tick_volume) →
      (∀ tf, 0 ≤ ((c.run rv d2t calls).1.barMap tf).tick_volume) ∧
      (∀ e ∈ (c.run rv d2t calls).2, 1 ≤ e.bar.tick_volume) ∧
      (∀ i k b, Effect.saveBarToDb i k b ∈ (c.run rv d2t calls).2 →
        Effect.collectedBar i k b ∈ (c.run rv d2t calls).2) := by
  intro calls
  induction calls with
  | nil =>
    intro c hc
    exact ⟨hc, (fun e he => by cases he), (fun i k b h => by cases h)⟩
  | cons x xs ih =>
    intro c hc
    simp only [BarCollector.run]
    have h1 := call_output rv d2t c x hc
    have h2 := ih _ h1.1
    refine ⟨h2.1, fun e he => ?_, fun i k b h => ?_⟩
    · rcases List.mem_append.mp he with he | he
      · exact h1.2.1 e he
      · exact h2.2.1 e he
    · rcases List.mem_append.mp h with h | h
      · exact List.mem_append_left _ (h1.2.2 i k b h)
      · exact List.mem_append_right _ (h2.2.2 i k b h)

/-- C14: starting from a fresh collector, after every finite sequence of
`onMarketData`, `setTradingDay` and `flush` calls, every bar handed to the event
sink or to the persistence sink has tick volume at least 1, and every bar handed
to the persistence sink (for an instrument and timeframe) is also handed to the
event sink (for the same instrument and timeframe). -/
theorem no_empty_bar_output (rv : ResetValues P) (d2t : String → Int) (instr : String)
    (keys : List TimeFrame) (save stock : Bool) (tdb : Int) (calls : List (Call P)) :
    (∀ e ∈ ((BarCollector.init rv instr keys save stock tdb).run rv d2t calls).2,
      1 ≤ e.bar.tick_volume) ∧
    (∀ i k b,
      Effect.saveBarToDb i k b
        ∈ ((BarCollector.init rv instr keys save stock tdb).run rv d2t calls).2 →
      Effect.collectedBar i k b
        ∈ ((BarCollector.init rv instr keys save stock tdb).run rv d2t calls).2) :=
  (run_output rv d2t calls (BarCollector.init rv instr keys save stock tdb)
    (fun _ => by simp [BarCollector.init, StandardBar.reset])).2

end Output

/-! ## Independence of the timeframes -/

section IndependencePlain

variable {P : Type}

theorem getTimeFrameBegin_congr (c1 c2 : BarCollector P)
    (h1 : c1.tradingDayBase = c2.tradingDayBase) (h2 : c1.isStockLike = c2.isStockLike)
    (t : Int) (tf : TimeFrame) : c1.getTimeFrameBegin t tf = c2.getTimeFrameBegin t tf := by
  simp only [BarCollector.getTimeFrameBegin, h1, h2]

end IndependencePlain

section Independence

variable {P : Type} [LinearOrder P] [BoundedOrder P]

theorem call_keys (rv : ResetValues P) (d2t : String → Int) (c : BarCollector P)
    (x : Call P) : (c.call rv d2t x).1.keys = c.keys := by
  cases x with
  | onMarketData t p v => rfl
  | setTradingDay day =>
    simp only [BarCollector.call, BarCollector.setTradingDay]
    split <;> rfl
  | flush e => rfl

/-- One call keeps two collectors in agreement on a timeframe both track, and
hands the same bars of that timeframe to the event sink. -/
theorem call_agree (rv : ResetValues P) (d2t : String → Int) (tf : TimeFrame)
    (c1 c2 : BarCollector P) (x : Call P) (hk1 : c1.keys.Nodup) (hk2 : c2.keys.Nodup)
    (h1 : tf ∈ c1.keys) (h2 : tf ∈ c2.keys) (ha : AgreeOn tf c1 c2) :
    AgreeOn tf (c1.call rv d2t x).1 (c2.call rv d2t x).1 ∧
    emittedFor tf (c1.call rv d2t x).2 = emittedFor tf (c2.call rv d2t x).2 := by
  obtain ⟨hb, hl, ht, hs⟩ := ha
  cases x with
  | onMarketData t p v =>
    have hg := getTimeFrameBegin_congr c1 c2 ht hs t tf
    refine ⟨⟨?_, rfl, ht, hs⟩, ?_⟩
    · show (c1.onMarketData rv t p v).state.barMap tf = (c2.onMarketData rv t p v).state.barMap tf
      rw [onMarketData_barMap rv c1 t p v tf hk1 h1, onMarketData_barMap rv c2 t p v tf hk2 h2,
        hb, hl, hg]
    · show emittedFor tf (c1.onMarketData rv t p v).effects
        = emittedFor tf (c2.onMarketData rv t p v).effects
      rw [onMarketData_emittedFor rv c1 t p v tf hk1 h1,
        onMarketData_emittedFor rv c2 t p v tf hk2 h2, hb, hg]
  | setTradingDay day =>
    refine ⟨?_, rfl⟩
    simp only [BarCollector.call, BarCollector.setTradingDay, AgreeOn]
    rw [ht]
    split
    · exact ⟨hb, rfl, rfl, hs⟩
    · exact ⟨hb, hl, ht, hs⟩
  | flush e =>
    refine ⟨⟨?_, hl, ht, hs⟩, ?_⟩
    · show (c1.flush rv e).state.barMap tf = (c2.flush rv e).state.barMap tf
      rw [flush_barMap rv c1 e tf hk1 h1, flush_barMap rv c2 e tf hk2 h2, hb]
    · show emittedFor tf (c1.flush rv e).effects = emittedFor tf (c2.flush rv e).effects
      rw [flush_emittedFor rv c1 e tf hk1 h1, flush_emittedFor rv c2 e tf hk2 h2, hb]

theorem run_agree (rv : ResetValues P) (d2t : String → Int) (tf : TimeFrame) :
    ∀ (calls : List (Call P)) (c1 c2 : BarCollector P), c1.keys.Nodup → c2.keys.Nodup →
      tf ∈ c1.keys → tf ∈ c2.keys → AgreeOn tf c1 c2 →
      AgreeOn tf (c1.run rv d2t calls).1 (c2.run rv d2t calls).1 ∧
      emittedFor tf (c1.run rv d2t calls).2 = emittedFor tf (c2.run rv d2t calls).2 ∧
      c1.returns rv d2t calls = c2.returns rv d2t calls := by
  intro calls
  induction calls with
  | nil =>
    intro c1 c2 _ _ _ _ ha
    exact ⟨ha, rfl, rfl⟩
  | cons x xs ih =>
    intro c1 c2 hk1 hk2 h1 h2 ha
    have hstep := call_agree rv d2t tf c1 c2 x hk1 hk2 h1 h2 ha
    have hrest := ih (c1.call rv d2t x).1 (c2.call rv d2t x).1
      (by rw [call_keys]; exact hk1) (by rw [call_keys]; exact hk2)
      (by rw [call_keys]; exact h1) (by rw [call_keys]; exact h2) hstep.1
    simp only [BarCollector.run, BarCollector.returns, emittedFor_append]
    refine ⟨hrest.1, ?_, ?_⟩
    · rw [hstep.2, hrest.2.1]
    · rw [hrest.2.2]
      cases x with
      | onMarketData t p v =>
        simp only [BarCollector.onMarketData, ha.2.1]
      | setTradingDay day => rfl
      | flush e => rfl

/-- C17: two fresh collectors configured with timeframe sets `S1` and `S2` that
both contain `tf` (same session mode and trading day base), driven by the same
sequence of calls, hand the same sequence of bars of `tf` to the event sink, end
with the same bar of `tf` and the same `lastVolume`, and return the same values
from `onMarketData`. -/
theorem timeframes_independent (rv : ResetValues P) (d2t : String → Int)
    (instr1 instr2 : String) (S1 S2 : List TimeFrame) (save1 save2 stock : Bool)
    (tdb : Int) (tf : TimeFrame) (calls : List (Call P)) (hS1 : S1.Nodup) (hS2 : S2.Nodup)
    (h1 : tf ∈ S1) (h2 : tf ∈ S2) :
    emittedFor tf ((BarCollector.init rv instr1 S1 save1 stock tdb).run rv d2t calls).2
      = emittedFor tf ((BarCollector.init rv instr2 S2 save2 stock tdb).run rv d2t calls).2 ∧
    ((BarCollector.init rv instr1 S1 save1 stock tdb).run rv d2t calls).1.barMap tf
      = ((BarCollector.init rv instr2 S2 save2 stock tdb).run rv d2t calls).1.barMap tf ∧
    (BarCollector.init rv instr1 S1 save1 stock tdb).returns rv d2t calls
      = (BarCollector.init rv instr2 S2 save2 stock tdb).returns rv d2t calls ∧
    ((BarCollector.init rv instr1 S1 save1 stock tdb).run rv d2t calls).1.lastVolume
      = ((BarCollector.init rv instr2 S2 save2 stock tdb).run rv d2t calls).1.lastVolume := by
  have h := run_agree rv d2t tf calls (BarCollector.init rv instr1 S1 save1 stock tdb)
    (BarCollector.init rv instr2 S2 save2 stock tdb) hS1 hS2 h1 h2 ⟨rfl, rfl, rfl, rfl⟩
  exact ⟨h.2.1, h.1.1, h.2.2, h.1.2.1⟩

/-- Witness for C17: the 1-minute timeframe tracked alone and tracked together
with the day class, over `sampleCalls`. -/
theorem timeframes_independent_witness :
    ([TimeFrame.MIN1].Nodup ∧ [TimeFrame.DAY, TimeFrame.MIN1].Nodup ∧
      TimeFrame.MIN1 ∈ [TimeFrame.MIN1] ∧ TimeFrame.MIN1 ∈ [TimeFrame.DAY, TimeFrame.MIN1]) ∧
    emittedFor TimeFrame.MIN1
        ((BarCollector.init sampleReset "rb1910" [TimeFrame.MIN1] false false 0).run
          sampleReset (fun _ => 0) sampleCalls).2
      = emittedFor TimeFrame.MIN1
        ((BarCollector.init sampleReset "rb1910" [TimeFrame.DAY, TimeFrame.MIN1] true false
          0).run sampleReset (fun _ => 0) sampleCalls).2 :=
  ⟨⟨by decide, by decide, by decide, by decide⟩,
    (timeframes_independent sampleReset (fun _ => 0) "rb1910" "rb1910" [TimeFrame.MIN1]
      [TimeFrame.DAY, TimeFrame.MIN1] false true false 0 TimeFrame.MIN1 sampleCalls
      (by decide) (by decide) (by decide) (by decide)).1⟩

end Independence

/-! ## Volume conservation -/

section VolumePlain

variable {P : Type}

theorem volumeSum_nil : volumeSum ([] : List (StandardBar P)) = 0 := rfl

theorem volumeSum_singleton (b : StandardBar P) : volumeSum [b] = b.volume := by
  simp [volumeSum]

theorem volumeSum_append (xs ys : List (StandardBar P)) :
    volumeSum (xs ++ ys) = volumeSum xs + volumeSum ys := by
  simp [volumeSum]

theorem getLast_volume_cons (tk : Tick P) (rest : List (Tick P)) (d : Int) :
    (((tk :: rest).getLast?).map Tick.volume).getD d
      = ((rest.getLast?).map Tick.volume).getD tk.volume := by
  cases rest with
  | nil => rfl
  | cons a r =>
    rw [List.getLast?_cons_cons]
    cases h : (a :: r).getLast? with
    | none => simp at h
    | some x => rfl

end VolumePlain

section Volume

variable {P : Type} [LinearOrder P] [BoundedOrder P]

theorem run_append (rv : ResetValues P) (d2t : String → Int) :
    ∀ (xs ys : List (Call P)) (c : BarCollector P),
      c.run rv d2t (xs ++ ys)
        = (((c.run rv d2t xs).1.run rv d2t ys).1,
            (c.run rv d2t xs).2 ++ ((c.run rv d2t xs).1.run rv d2t ys).2) := by
  intro xs
  induction xs with
  | nil => intro ys c; simp [BarCollector.run]
  | cons x xs ih =>
    intro ys c
    show c.run rv d2t (x :: (xs ++ ys)) = _
    simp only [BarCollector.run]
    rw [ih]
    simp only [List.append_assoc]

theorem volume_conservation_aux (rv : ResetValues P) (d2t : String → Int) (tf : TimeFrame) :
    ∀ (ticks : List (Tick P)) (c : BarCollector P), c.keys.Nodup → tf ∈ c.keys →
      0 ≤ (c.barMap tf).tick_volume →
      ((c.barMap tf).tick_volume = 0 → (c.barMap tf).volume = 0) →
      volumeSum (emittedFor tf (c.run rv d2t (ticks.map Tick.toCall)).2)
          + ((c.run rv d2t (ticks.map Tick.toCall)).1.barMap tf).volume
        = (c.barMap tf).volume
          + (((ticks.getLast?).map Tick.volume).getD c.lastVolume - c.lastVolume) ∧
      0 ≤ ((c.run rv d2t (ticks.map Tick.toCall)).1.barMap tf).tick_volume ∧
      (((c.run rv d2t (ticks.map Tick.toCall)).1.barMap tf).tick_volume = 0 →
        ((c.run rv d2t (ticks.map Tick.toCall)).1.barMap tf).volume = 0) ∧
      (c.run rv d2t (ticks.map Tick.toCall)).1.keys = c.keys := by
  intro ticks
  induction ticks with
  | nil =>
    intro c _ _ htv hvol
    simp only [List.map_nil, BarCollector.run, emittedFor_nil, volumeSum_nil,
      List.getLast?_nil, Option.map_none', Option.getD_none]
    exact ⟨by omega, htv, hvol, trivial⟩
  | cons tk rest ih =>
    intro c hk htf htv hvol
    rw [run_cons_tick, getLast_volume_cons]
    simp only [emittedFor_append, volumeSum_append]
    have hIH := ih (c.onMarketData rv tk.time tk.lastPrice tk.volume).state hk htf
    rw [onMarketData_lastVolume, onMarketData_keys] at hIH
    have hcases := tick_cases rv c tk.time tk.lastPrice tk.volume tf hk htf
    simp only [isEmpty_eq_true_iff, isEmpty_eq_false_iff] at hcases
    generalize ((rest.getLast?).map Tick.volume).getD tk.volume = last at *
    generalize (c.onMarketData rv tk.time tk.lastPrice tk.volume).state.run rv d2t
      (rest.map Tick.toCall) = r at *
    generalize (c.onMarketData rv tk.time tk.lastPrice tk.volume).state.barMap tf = B' at *
    generalize emittedFor tf (c.onMarketData rv tk.time tk.lastPrice tk.volume).effects
      = E0 at *
    generalize c.barMap tf = B at *
    generalize c.lastVolume = lv at *
    rcases hcases with
      ⟨hv, _, hB', hem⟩ | ⟨hv, hE, _, hB', hem⟩ | ⟨hv, hE, _, hV, hTV, hem⟩ |
      ⟨hv, hE, _, _, hV, hTV, hem⟩ | ⟨hv, hE, _, _, hV, hTV, hem⟩
    · subst hB' hem
      obtain ⟨h1, h2, h3, h4⟩ := hIH htv hvol
      refine ⟨?_, h2, h3, h4⟩
      rw [volumeSum_nil]
      omega
    · subst hB' hem
      obtain ⟨h1, h2, h3, h4⟩ := hIH (by simp [StandardBar.reset])
        (by simp [StandardBar.reset])
      refine ⟨?_, h2, h3, h4⟩
      rw [volumeSum_singleton]
      simp only [StandardBar.reset] at h1
      omega
    · subst hem
      obtain ⟨h1, h2, h3, h4⟩ := hIH (by omega) (by omega)
      refine ⟨?_, h2, h3, h4⟩
      rw [volumeSum_nil]
      omega
    · subst hem
      obtain ⟨h1, h2, h3, h4⟩ := hIH (by omega) (by omega)
      refine ⟨?_, h2, h3, h4⟩
      rw [volumeSum_nil]
      omega
    · subst hem
      obtain ⟨h1, h2, h3, h4⟩ := hIH (by omega) (by omega)
      refine ⟨?_, h2, h3, h4⟩
      rw [volumeSum_singleton]
      omega

/-- C20: for a fresh collector, a configured timeframe and any tick sequence (no
`setTradingDay` in between) followed by `flush(true)`, the volumes of all bars
emitted for the timeframe add up to the cumulative volume of the last tick (0
for the empty sequence). -/
theorem volume_conservation (rv : ResetValues P) (d2t : String → Int) (instr : String)
    (keys : List TimeFrame) (save stock : Bool) (tdb : Int) (tf : TimeFrame)
    (ticks : List (Tick P)) (hk : keys.Nodup) (htf : tf ∈ keys) :
    volumeSum (emittedFor tf
        ((BarCollector.init rv instr keys save stock tdb).run rv d2t
          (ticks.map Tick.toCall ++ [Call.flush true])).2)
      = lastCumulativeVolume ticks := by
  obtain ⟨h1, h2, h3, h4⟩ := volume_conservation_aux rv d2t tf ticks
    (BarCollector.init rv instr keys save stock tdb) hk htf
    (by simp [init_barMap, StandardBar.reset]) (by simp [init_barMap, StandardBar.reset])
  rw [run_append]
  simp only [emittedFor_append, volumeSum_append, BarCollector.run, BarCollector.call,
    List.append_nil]
  rw [flush_emittedFor rv _ true tf (by rw [h4]; exact hk) (by rw [h4]; exact htf)]
  simp only [init_barMap, StandardBar.reset] at h1
  have h0 : (BarCollector.init rv instr keys save stock tdb).lastVolume = 0 := rfl
  rw [h0] at h1
  unfold lastCumulativeVolume
  cases hE : (((BarCollector.init rv instr keys save stock tdb).run rv d2t
      (ticks.map Tick.toCall)).1.barMap tf).isEmpty
  · simp only [hE, or_true, and_self, if_true, volumeSum_singleton]
    omega
  · have h5 := h3 ((isEmpty_eq_true_iff _).mp hE)
    simp only [hE, Bool.true_eq_false, and_false, if_false, volumeSum_nil]
    omega

/-- Witness for C20: `sampleFresh` fed the three ticks of the end-to-end example
and then flushed emits bars whose volumes add up to 3. -/
theorem volume_conservation_witness :
    ([TimeFrame.MIN1].Nodup ∧ TimeFrame.MIN1 ∈ [TimeFrame.MIN1]) ∧
    volumeSum (emittedFor TimeFrame.MIN1
        (sampleFresh.run sampleReset (fun _ => 0)
          (sampleTicks.map Tick.toCall ++ [Call.flush true])).2)
      = 3 :=
  ⟨⟨by decide, by decide⟩,
    volume_conservation sampleReset (fun _ => 0) "rb1910" [TimeFrame.MIN1] false false 0
      TimeFrame.MIN1 sampleTicks (by decide) (by decide)⟩

end Volume

end LazzyQuant
